import Mathlib

/-!
bl-logger: the dispatcher (`lib/logger.js`) and its destinations.

A shallow embedding of the JavaScript sources of bl-logger.

* JavaScript values are the inductive `JSValue`; numbers are the integers (the six
  `LogLevels` constants are integers, and the code only compares numbers), a `Date` carries
  its two renderings.
* A plain object is a property list `Obj` of its own properties, read with `Obj.get` (an
  absent property reads as `undefined`; the properties inherited from `Object.prototype`
  are left out) and written with `Obj.set`. Objects are passed by value: every function
  that mutates an argument returns the argument as it leaves it. The mapping a caller hands
  to `Logger.log` is an object of its own; the call whose metadata argument is the
  `defaultMetadata` object of the logger itself, and the array `destinations` that holds
  `null` or `undefined`, are those of `LoggerObject.log`.
* A promise is modelled by the state it settles in (`Completion`), console, file and network
  output by a list of `Effect`s, the calls made in order. The file system (`fs`) and the
  `request` library are parameters of the destinations that use them: for the arguments
  of a call they give what the call returns or throws.
* A function that can throw returns an `Outcome` together with the state it leaves. The
  `log` of a destination returns a promise, as the `log` of the three destinations of the
  library does: what goes wrong in it is a rejected promise.
-/

set_option autoImplicit false

/-! ## JavaScript values -/

/-- A JavaScript value. `date iso text` is a valid `Date` with its `toISOString()` and its
`toString()` renderings, `invalidDate` is the `Date` whose time value is `NaN`;
`object props` is a plain object with its own properties in insertion order, all of them
data: a property that holds a function is not represented. -/
inductive JSValue where
  | undefined
  | null
  | boolean (b : Bool)
  | number (n : Int)
  | string (s : String)
  | date (iso : String) (text : String)
  | object (props : List (String × JSValue))
  | invalidDate

/-- A plain object: its own enumerable properties, in insertion order. Reading goes to the
first binding of a key. -/
abbrev Obj := List (String × JSValue)

namespace JSValue

mutual
/-- Equality of values is decidable. -/
def decEq : (a b : JSValue) → Decidable (a = b)
  | undefined, undefined => isTrue rfl
  | null, null => isTrue rfl
  | boolean a, boolean b =>
    if h : a = b then isTrue (by rw [h]) else isFalse (by intro e; cases e; exact h rfl)
  | number a, number b =>
    if h : a = b then isTrue (by rw [h]) else isFalse (by intro e; cases e; exact h rfl)
  | string a, string b =>
    if h : a = b then isTrue (by rw [h]) else isFalse (by intro e; cases e; exact h rfl)
  | date a c, date b d =>
    if h : a = b ∧ c = d then isTrue (by rw [h.1, h.2])
    else isFalse (by intro e; cases e; exact h ⟨rfl, rfl⟩)
  | object a, object b =>
    match decEqProps a b with
    | isTrue h => isTrue (by rw [h])
    | isFalse h => isFalse (by intro e; cases e; exact h rfl)
  | invalidDate, invalidDate => isTrue rfl
  | undefined, null | undefined, boolean _ | undefined, number _ | undefined, string _
  | undefined, date _ _ | undefined, object _ | undefined, invalidDate =>
    isFalse (by intro e; cases e)
  | null, undefined | null, boolean _ | null, number _ | null, string _
  | null, date _ _ | null, object _ | null, invalidDate => isFalse (by intro e; cases e)
  | boolean _, undefined | boolean _, null | boolean _, number _ | boolean _, string _
  | boolean _, date _ _ | boolean _, object _ | boolean _, invalidDate =>
    isFalse (by intro e; cases e)
  | number _, undefined | number _, null | number _, boolean _ | number _, string _
  | number _, date _ _ | number _, object _ | number _, invalidDate =>
    isFalse (by intro e; cases e)
  | string _, undefined | string _, null | string _, boolean _ | string _, number _
  | string _, date _ _ | string _, object _ | string _, invalidDate =>
    isFalse (by intro e; cases e)
  | date _ _, undefined | date _ _, null | date _ _, boolean _ | date _ _, number _
  | date _ _, string _ | date _ _, object _ | date _ _, invalidDate =>
    isFalse (by intro e; cases e)
  | object _, undefined | object _, null | object _, boolean _ | object _, number _
  | object _, string _ | object _, date _ _ | object _, invalidDate =>
    isFalse (by intro e; cases e)
  | invalidDate, undefined | invalidDate, null | invalidDate, boolean _
  | invalidDate, number _ | invalidDate, string _ | invalidDate, date _ _
  | invalidDate, object _ => isFalse (by intro e; cases e)
/-- Equality of property lists is decidable. -/
def decEqProps : (a b : List (String × JSValue)) → Decidable (a = b)
  | [], [] => isTrue rfl
  | [], _ :: _ => isFalse (by intro e; cases e)
  | _ :: _, [] => isFalse (by intro e; cases e)
  | (k, v) :: as, (l, w) :: bs =>
    if hk : k = l then
      match decEq v w with
      | isTrue hv =>
        match decEqProps as bs with
        | isTrue ht => isTrue (by rw [hk, hv, ht])
        | isFalse ht => isFalse (by intro e; cases e; exact ht rfl)
      | isFalse hv => isFalse (by intro e; cases e; exact hv rfl)
    else isFalse (by intro e; cases e; exact hk rfl)
end

instance : DecidableEq JSValue := decEq

/-- The `typeof` operator. -/
def typeof : JSValue → String
  | undefined => "undefined"
  | null => "object"
  | boolean _ => "boolean"
  | number _ => "number"
  | string _ => "string"
  | date _ _ => "object"
  | object _ => "object"
  | invalidDate => "object"

/-- Truthiness, as tested by `!v`, `v ? a : b` and `if (v)`. -/
def truthy : JSValue → Bool
  | undefined => false
  | null => false
  | boolean b => b
  | number n => n != 0
  | string s => s != ""
  | date _ _ => true
  | object _ => true
  | invalidDate => true

/-- The string a value becomes when it is concatenated to a string with `+`. -/
def toStringJS : JSValue → String
  | undefined => "undefined"
  | null => "null"
  | boolean true => "true"
  | boolean false => "false"
  | number n => toString n
  | string s => s
  | date _ text => text
  | object _ => "[object Object]"
  | invalidDate => "Invalid Date"

/-- The test `v === undefined`. -/
def isUndefined : JSValue → Bool
  | undefined => true
  | _ => false

end JSValue

namespace Obj

/-- Property read `o[k]`: the value of the property, `undefined` when `o` has none. -/
def get (o : Obj) (k : String) : JSValue :=
  match o with
  | [] => JSValue.undefined
  | (key, v) :: rest => if key = k then v else get rest k

/-- Own-property test: `k in o` for a plain object. -/
def hasKey (o : Obj) (k : String) : Bool :=
  match o with
  | [] => false
  | (key, _) :: rest => if key = k then true else hasKey rest k

/-- Property write `o[k] = v`: an existing property keeps its place, a new one goes last. -/
def set (o : Obj) (k : String) (v : JSValue) : Obj :=
  match o with
  | [] => [(k, v)]
  | (key, w) :: rest => if key = k then (k, v) :: rest else (key, w) :: set rest k v

/-- The keys of an object, in insertion order. -/
def keys (o : Obj) : List String := o.map Prod.fst

end Obj

/-- The step of lodash `defaults` for one key of the source: the property is assigned when
it resolves to `undefined` in the destination object. -/
def defaultsStep (source : Obj) (object : Obj) (key : String) : Obj :=
  if (object.get key).isUndefined then object.set key (source.get key) else object

/-- Lodash `_.defaults(object, source)`: assigns the properties of `source` to `object` for
all properties of `object` that resolve to `undefined`. It mutates `object`; the value
returned here is `object` after the call. -/
def defaults (object source : Obj) : Obj :=
  source.keys.foldl (defaultsStep source) object

/-! ## Promises, outcomes and effects -/

/-- The state a promise settles in: fulfilled with a value, rejected with an `Error` (given
by its message), or never settled. -/
inductive Completion (α : Type) where
  | resolved (value : α)
  | rejected (error : String)
  | pending
  deriving DecidableEq

/-- The outcome of a call that may throw. -/
inductive Outcome (α : Type) where
  | returned (value : α)
  | threw (error : String)
  deriving DecidableEq

namespace Promise

/-- Bluebird `Promise.all`: rejected as soon as one input is rejected, fulfilled with the
array of values once every input is fulfilled. Time is not modelled: of several rejected
inputs the first of the array gives the error. -/
def all : List (Completion JSValue) → Completion (List JSValue)
  | [] => Completion.resolved []
  | p :: ps =>
    match p with
    | Completion.rejected e => Completion.rejected e
    | Completion.pending =>
      match all ps with
      | Completion.rejected e => Completion.rejected e
      | _ => Completion.pending
    | Completion.resolved v =>
      match all ps with
      | Completion.rejected e => Completion.rejected e
      | Completion.pending => Completion.pending
      | Completion.resolved vs => Completion.resolved (v :: vs)

end Promise

/-- What a destination does to the outside world: a call of `console.log`, `console.error`,
`fs.openSync`, `fs.writeSync`, `fs.fsyncSync` or `request`, with its arguments. -/
inductive Effect where
  | consoleLog (line : String)
  | consoleError (line : String)
  | fsWriteSync (file : Nat) (data : String)
  | fsFsyncSync (file : Nat)
  | request (requestOptions : Obj)
  | fsOpenSync (path : JSValue) (flags : String)
  deriving DecidableEq

/-! ## Log levels (`lib/loglevels.js`) -/

namespace LogLevels

def Debug : Int := 0
def Info : Int := 1
def Warning : Int := 2
def Error : Int := 3
def Fatal : Int := 4
def None : Int := 5

end LogLevels

/-! ## Destinations -/

/-- What a call of a destination's `log(logLevel, message, metadata)` leaves behind: the
metadata object as the call leaves it (the object is shared with the caller), the output
it produced, and the promise it returned. -/
structure DestinationResult where
  metadata : Obj
  effects : List Effect
  completion : Completion JSValue

/-- A callable `log` of a destination, a function of `(logLevel, message, metadata)`.
As for the three destinations of the library, a failure of the call is a rejected promise. -/
abbrev DestinationLog := Int → JSValue → Obj → DestinationResult

/-- The `log` member of an object handed in as a destination: a function, or any other value
(`undefined` when the object has no such member). -/
inductive Member where
  | data (v : JSValue)
  | method (f : DestinationLog)

namespace Member

/-- Truthiness of the member: a function is truthy. -/
def truthy : Member → Bool
  | data v => v.truthy
  | method _ => true

/-- The `typeof` of the member. -/
def typeof : Member → String
  | data v => v.typeof
  | method _ => "function"

end Member

/-- An object attached, or offered, as a destination. -/
structure Destination where
  log : Member

/-- The guard of `logger.js` lines 62 and 87, negated: the destination has a `log` that is
a function. -/
def Destination.hasLogMethod (destination : Destination) : Bool :=
  !(!destination.log.truthy || destination.log.typeof != "function")

/-! ## The logger (`lib/logger.js`) -/

/-- The fields of a `Logger`. -/
structure Logger where
  destinations : List Destination
  logLevel : Int
  defaultMetadata : Obj

/-- One invocation of a destination's `log` by `Logger.log`: the position of the destination
in `destinations` and the three arguments, the metadata as the object is when the call is
made. -/
structure Call where
  destination : Nat
  logLevel : Int
  message : JSValue
  metadata : Obj
  deriving DecidableEq

/-- The locals of `Logger.log` during the `forEach`, with the record of what happened. -/
structure LogState where
  metadata : Obj
  loggingPromises : List (Completion JSValue)
  calls : List Call
  effects : List Effect

/-- What `Logger.log` leaves behind: the returned promise (or the error thrown), the logger,
the caller's metadata object when one was passed, the invocations of destinations in order
and their output. -/
structure LogOutcome where
  result : Outcome (Completion (List JSValue))
  logger : Logger
  metadata : Option Obj
  calls : List Call
  effects : List Effect

namespace Logger

/-- Constructor (`logger.js` lines 22-26). -/
def new : Logger :=
  { destinations := [], logLevel := LogLevels.Info, defaultMetadata := [] }

/-- The callback of the `forEach` (`logger.js` lines 61-69) at the destination of position
`index`. -/
def logCallback (self : Logger) (logLevel : Int) (message : JSValue) (index : Nat)
    (destination : Destination) (st : LogState) : LogState :=
  if !destination.log.truthy || destination.log.typeof != "function" then st
  else if logLevel ≥ self.logLevel then
    match destination.log with
    | Member.method f =>
      let r := f logLevel message st.metadata
      { metadata := r.metadata
        loggingPromises := st.loggingPromises ++ [r.completion]
        calls := st.calls ++ [{ destination := index, logLevel := logLevel,
                                message := message, metadata := st.metadata }]
        effects := st.effects ++ r.effects }
    | Member.data _ => st
  else st

/-- The loop `this.destinations.forEach(...)`, from position `index` on. -/
def forEachDestination (self : Logger) (logLevel : Int) (message : JSValue) :
    Nat → List Destination → LogState → LogState
  | _, [], st => st
  | index, destination :: rest, st =>
    forEachDestination self logLevel message (index + 1) rest
      (logCallback self logLevel message index destination st)

/-- Method `log` (`logger.js` lines 47-72). The metadata argument is a mapping, or `none`
when the caller passes none. -/
def log (self : Logger) (logLevel : JSValue) (message : JSValue) (metadata : Option Obj) :
    LogOutcome :=
  match logLevel with
  | JSValue.number level =>
    if message.typeof == "undefined" then
      { result := Outcome.returned (Completion.rejected "Message is not defined")
        logger := self, metadata := metadata, calls := [], effects := [] }
    else
      let metadata0 : Obj := match metadata with
        | some m => m
        | none => []
      let merged := defaults metadata0 self.defaultMetadata
      let st := forEachDestination self level message 0 self.destinations
        { metadata := merged, loggingPromises := [], calls := [], effects := [] }
      { result := Outcome.returned (Promise.all st.loggingPromises)
        logger := self
        metadata := metadata.map (fun _ => st.metadata)
        calls := st.calls
        effects := st.effects }
  | _ =>
    { result := Outcome.returned (Completion.rejected "Log Level should be a number")
      logger := self, metadata := metadata, calls := [], effects := [] }

/-- Method `attachDestination` (`logger.js` lines 86-92): the outcome and the logger after
the call. -/
def attachDestination (self : Logger) (destination : Destination) : Outcome Unit × Logger :=
  if !destination.log.truthy || destination.log.typeof != "function" then
    (Outcome.threw "Added destination has no log() method", self)
  else
    (Outcome.returned (), { self with destinations := self.destinations ++ [destination] })

/-- Method `setLogLevel` (`logger.js` lines 105-109): the outcome and the logger after the
call. -/
def setLogLevel (self : Logger) (logLevel : JSValue) : Outcome Unit × Logger :=
  if logLevel.typeof != "number" then
    (Outcome.threw "Log level should be a number", self)
  else
    (Outcome.returned (), self)

/-- Attaching the destinations of a list one after the other, stopping at the first call
that throws. -/
def attachAll (self : Logger) : List Destination → Outcome Unit × Logger
  | [] => (Outcome.returned (), self)
  | destination :: rest =>
    match self.attachDestination destination with
    | (Outcome.returned _, next) => attachAll next rest
    | (Outcome.threw e, next) => (Outcome.threw e, next)

end Logger

/-- The positions of the destinations of `l` that have a `log` method, `l` starting at
position `index`. -/
def callablePositions : Nat → List Destination → List Nat
  | _, [] => []
  | index, d :: rest =>
    if d.hasLogMethod then index :: callablePositions (index + 1) rest
    else callablePositions (index + 1) rest

/-! ## The logger in any state that direct access to its properties allows

`Logger` above is the logger as its constructor and `attachDestination` build it, called
with a metadata object of the caller's own. `LoggerObject` has the same fields, with an
array `destinations` that may also hold `null` or `undefined`, and its `log` takes a
metadata argument that may be the object `defaultMetadata` of the logger itself. On the
loggers and arguments of the first kind the two agree (`LoggerObject.log_toObject`). -/

/-- An element of the array `destinations`: an object, or `null` or `undefined`, which
direct access to the property can put there. -/
inductive Entry where
  | null
  | undefined
  | object (destination : Destination)

/-- The metadata argument of a call of `log`: none, a mapping of the caller's own, or the
very object that the logger holds as `defaultMetadata`. -/
inductive MetadataArgument where
  | absent
  | mapping (metadata : Obj)
  | defaultMetadata

/-- The fields of a `Logger`, the elements of `destinations` being any entries. -/
structure LoggerObject where
  destinations : List Entry
  logLevel : Int
  defaultMetadata : Obj

/-- What `log` leaves behind: the returned promise or the error thrown, the logger, the
metadata object that was passed when one was, the invocations of destinations in order
and their output. -/
structure LoggerObjectOutcome where
  result : Outcome (Completion (List JSValue))
  logger : LoggerObject
  metadata : Option Obj
  calls : List Call
  effects : List Effect

/-- The logger built through the constructor and `attachDestination`, as an object. -/
def Logger.toObject (self : Logger) : LoggerObject :=
  { destinations := self.destinations.map Entry.object
    logLevel := self.logLevel
    defaultMetadata := self.defaultMetadata }

/-- The optional mapping of the caller's own, as a metadata argument. -/
def MetadataArgument.ofOption : Option Obj → MetadataArgument
  | none => MetadataArgument.absent
  | some m => MetadataArgument.mapping m

namespace LoggerObject

/-- The object that the metadata argument denotes, if any. -/
def argumentObject (self : LoggerObject) : MetadataArgument → Option Obj
  | MetadataArgument.absent => none
  | MetadataArgument.mapping m => some m
  | MetadataArgument.defaultMetadata => some self.defaultMetadata

/-- The callback of the `forEach` (`logger.js` lines 61-69) at the entry of position
`index`: reading `destination.log` on `null` or `undefined` throws a `TypeError`. -/
def logCallback (self : LoggerObject) (logLevel : Int) (message : JSValue) (index : Nat)
    (entry : Entry) (st : LogState) : Outcome LogState :=
  match entry with
  | Entry.null => Outcome.threw "TypeError: Cannot read property \x27log\x27 of null"
  | Entry.undefined =>
    Outcome.threw "TypeError: Cannot read property \x27log\x27 of undefined"
  | Entry.object destination =>
    if !destination.log.truthy || destination.log.typeof != "function" then
      Outcome.returned st
    else if logLevel ≥ self.logLevel then
      match destination.log with
      | Member.method f =>
        let r := f logLevel message st.metadata
        Outcome.returned
          { metadata := r.metadata
            loggingPromises := st.loggingPromises ++ [r.completion]
            calls := st.calls ++ [{ destination := index, logLevel := logLevel,
                                    message := message, metadata := st.metadata }]
            effects := st.effects ++ r.effects }
      | Member.data _ => Outcome.returned st
    else Outcome.returned st

/-- The loop `this.destinations.forEach(...)`, from position `index` on: the state it
leaves and the exception that ended it, if one did. -/
def forEachEntry (self : LoggerObject) (logLevel : Int) (message : JSValue) :
    Nat → List Entry → LogState → LogState × Option String
  | _, [], st => (st, none)
  | index, entry :: rest, st =>
    match logCallback self logLevel message index entry st with
    | Outcome.returned next => forEachEntry self logLevel message (index + 1) rest next
    | Outcome.threw e => (st, some e)

/-- Method `log` (`logger.js` lines 47-72) on a logger in any state. When the metadata
argument is the `defaultMetadata` of the logger, what `_.defaults` and the destinations
write into the metadata they write into the stored default metadata. -/
def log (self : LoggerObject) (logLevel : JSValue) (message : JSValue)
    (metadata : MetadataArgument) : LoggerObjectOutcome :=
  match logLevel with
  | JSValue.number level =>
    if message.typeof == "undefined" then
      { result := Outcome.returned (Completion.rejected "Message is not defined")
        logger := self, metadata := self.argumentObject metadata, calls := [], effects := [] }
    else
      let metadata0 : Obj := match self.argumentObject metadata with
        | some m => m
        | none => []
      let merged := defaults metadata0 self.defaultMetadata
      let run := forEachEntry self level message 0 self.destinations
        { metadata := merged, loggingPromises := [], calls := [], effects := [] }
      { result := match run.2 with
          | some e => Outcome.threw e
          | none => Outcome.returned (Promise.all run.1.loggingPromises)
        logger := match metadata with
          | MetadataArgument.defaultMetadata => { self with defaultMetadata := run.1.metadata }
          | _ => self
        metadata := (self.argumentObject metadata).map (fun _ => run.1.metadata)
        calls := run.1.calls
        effects := run.1.effects }
  | _ =>
    { result := Outcome.returned (Completion.rejected "Log Level should be a number")
      logger := self, metadata := self.argumentObject metadata, calls := [], effects := [] }

end LoggerObject

/-! ## The console destination (`lib/destinations/console.js`) -/

/-- The call `metadata.timestamp.toISOString()` on a truthy value: a valid `Date` gives its
ISO rendering, on an invalid `Date` the method throws a `RangeError`, and any other value
of `JSValue` has no such method, so that the call throws a `TypeError`. -/
def toISOString : JSValue → Except String String
  | JSValue.date iso _ => Except.ok iso
  | JSValue.invalidDate => Except.error "RangeError: Invalid time value"
  | _ => Except.error "TypeError: metadata.timestamp.toISOString is not a function"

/-- A `ConsoleDestination`: its `options` field. -/
structure ConsoleDestination where
  options : Obj

namespace ConsoleDestination

/-- The `defaultOptions` of the constructor. -/
def defaultOptions : Obj :=
  [("logTimestamp", JSValue.boolean false), ("logTransactionID", JSValue.boolean false),
   ("logProcessID", JSValue.boolean false)]

/-- The `defaultMetadata` of `log`. -/
def defaultMetadata : Obj :=
  [("processID", JSValue.boolean false), ("timestamp", JSValue.boolean false),
   ("transactionID", JSValue.boolean false)]

/-- Constructor (`console.js` lines 26-36). -/
def new (options : Obj) : ConsoleDestination :=
  { options := defaults options defaultOptions }

/-- The process-id prefix (`console.js` lines 74-76). -/
def processPrefix (options metadata : Obj) : String :=
  if (options.get "logProcessID").truthy then
    if (metadata.get "processID").truthy then
      "Process: " ++ (metadata.get "processID").toStringJS ++ " - "
    else ""
  else ""

/-- The timestamp prefix (`console.js` lines 78-80); `toISOString` may throw. -/
def timestampPrefix (options metadata : Obj) : Except String String :=
  if (options.get "logTimestamp").truthy then
    if (metadata.get "timestamp").truthy then
      match toISOString (metadata.get "timestamp") with
      | Except.ok iso => Except.ok (iso ++ " - ")
      | Except.error e => Except.error e
    else Except.ok ""
  else Except.ok ""

/-- The transaction-id prefix (`console.js` lines 82-84). -/
def transactionPrefix (options metadata : Obj) : String :=
  if (options.get "logTransactionID").truthy then
    if (metadata.get "transactionID").truthy then
      "Transaction: " ++ (metadata.get "transactionID").toStringJS ++ " - "
    else ""
  else ""

/-- Method `log` (`console.js` lines 59-96). An exception in the executor of the promise
rejects the promise. -/
def log (self : ConsoleDestination) (logLevel : Int) (message : JSValue) (metadata : Obj) :
    DestinationResult :=
  let metadata := defaults metadata defaultMetadata
  let options := self.options
  match timestampPrefix options metadata with
  | Except.error e => { metadata := metadata, effects := [], completion := Completion.rejected e }
  | Except.ok timestamp =>
    let logMessage := "" ++ processPrefix options metadata ++ timestamp
      ++ transactionPrefix options metadata ++ message.toStringJS
    { metadata := metadata
      effects := if logLevel ≥ LogLevels.Error then [Effect.consoleError logMessage]
                 else [Effect.consoleLog logMessage]
      completion := Completion.resolved JSValue.undefined }

/-- The console destination as an object with a `log` method. -/
def toDestination (self : ConsoleDestination) : Destination :=
  { log := Member.method self.log }

end ConsoleDestination

/-! ## The file destination (`lib/destinations/file.js`) -/

/-- The three calls of the `fs` module that `file.js` makes, as parameters: for its
arguments each call returns (a file descriptor, for `openSync`) or throws. -/
structure FileSystem where
  openSync : JSValue → String → Outcome Nat
  writeSync : Nat → String → Outcome Unit
  fsyncSync : Nat → Outcome Unit

/-- A `FileDestination`: its fields `options` and `file`. -/
structure FileDestination where
  options : Obj
  file : Nat
  deriving DecidableEq

namespace FileDestination

/-- The `defaultOptions` of the constructor. -/
def defaultOptions : Obj :=
  [("append", JSValue.boolean true), ("filename", JSValue.boolean false),
   ("logTimestamp", JSValue.boolean false), ("logTransactionID", JSValue.boolean false),
   ("logProcessID", JSValue.boolean false)]

/-- The `defaultMetadata` of `log`. -/
def defaultMetadata : Obj :=
  [("processID", JSValue.boolean false), ("timestamp", JSValue.boolean false),
   ("transactionID", JSValue.boolean false)]

/-- Constructor (`file.js` lines 27-47): the destination built or the error thrown, and the
calls made to the file system. -/
def new (fs : FileSystem) (options : Obj) : Outcome FileDestination × List Effect :=
  if !((defaults options defaultOptions).get "filename").truthy then
    (Outcome.threw "filename is a required option", [])
  else
    match fs.openSync ((defaults options defaultOptions).get "filename")
        (if ((defaults options defaultOptions).get "append").truthy then "a" else "w") with
    | Outcome.returned file =>
      (Outcome.returned { options := defaults options defaultOptions, file := file },
       [Effect.fsOpenSync ((defaults options defaultOptions).get "filename")
          (if ((defaults options defaultOptions).get "append").truthy then "a" else "w")])
    | Outcome.threw e =>
      (Outcome.threw e,
       [Effect.fsOpenSync ((defaults options defaultOptions).get "filename")
          (if ((defaults options defaultOptions).get "append").truthy then "a" else "w")])

/-- The process-id prefix (`file.js` lines 83-85). -/
def processPrefix (options metadata : Obj) : String :=
  if (options.get "logProcessID").truthy then
    if (metadata.get "processID").truthy then
      "Process: " ++ (metadata.get "processID").toStringJS ++ " - "
    else ""
  else ""

/-- The timestamp prefix (`file.js` lines 87-89); `toISOString` may throw. -/
def timestampPrefix (options metadata : Obj) : Except String String :=
  if (options.get "logTimestamp").truthy then
    if (metadata.get "timestamp").truthy then
      match toISOString (metadata.get "timestamp") with
      | Except.ok iso => Except.ok (iso ++ " - ")
      | Except.error e => Except.error e
    else Except.ok ""
  else Except.ok ""

/-- The transaction-id prefix (`file.js` lines 91-93). -/
def transactionPrefix (options metadata : Obj) : String :=
  if (options.get "logTransactionID").truthy then
    if (metadata.get "transactionID").truthy then
      "Transaction ID: " ++ (metadata.get "transactionID").toStringJS ++ " - "
    else ""
  else ""

/-- Method `log` (`file.js` lines 68-102). An exception in the executor of the promise,
from `toISOString` or from the file system, rejects the promise. -/
def log (self : FileDestination) (fs : FileSystem) (_logLevel : Int) (message : JSValue)
    (metadata : Obj) : DestinationResult :=
  let metadata := defaults metadata defaultMetadata
  let options := self.options
  let file := self.file
  match timestampPrefix options metadata with
  | Except.error e => { metadata := metadata, effects := [], completion := Completion.rejected e }
  | Except.ok timestamp =>
    let logMessage := "" ++ processPrefix options metadata ++ timestamp
      ++ transactionPrefix options metadata ++ message.toStringJS
    match fs.writeSync file (logMessage ++ "\n") with
    | Outcome.threw e =>
      { metadata := metadata, effects := [Effect.fsWriteSync file (logMessage ++ "\n")]
        completion := Completion.rejected e }
    | Outcome.returned _ =>
      match fs.fsyncSync file with
      | Outcome.threw e =>
        { metadata := metadata
          effects := [Effect.fsWriteSync file (logMessage ++ "\n"), Effect.fsFsyncSync file]
          completion := Completion.rejected e }
      | Outcome.returned _ =>
        { metadata := metadata
          effects := [Effect.fsWriteSync file (logMessage ++ "\n"), Effect.fsFsyncSync file]
          completion := Completion.resolved JSValue.undefined }

/-- The file destination as an object with a `log` method. -/
def toDestination (self : FileDestination) (fs : FileSystem) : Destination :=
  { log := Member.method (self.log fs) }

end FileDestination

/-! ## The HTTP destination (`lib/destinations/httpjson.js`) -/

/-- An `HTTPJSONDestination`: its `options` field. -/
structure HTTPJSONDestination where
  options : Obj

namespace HTTPJSONDestination

/-- The `defaultOptions` of the constructor. -/
def defaultOptions : Obj :=
  [("url", JSValue.boolean false), ("method", JSValue.boolean false),
   ("headers", JSValue.object [])]

/-- Constructor (`httpjson.js` lines 29-47): the destination built, or the error thrown. -/
def new (options : Obj) : Outcome HTTPJSONDestination :=
  if !((defaults options defaultOptions).get "url").truthy then
    Outcome.threw "url is a required option"
  else if !((defaults options defaultOptions).get "method").truthy then
    Outcome.threw "method is a required option"
  else
    Outcome.returned { options := defaults options defaultOptions }

/-- The `requestOptions` that `log` builds (`httpjson.js` lines 71-83). -/
def requestOptions (self : HTTPJSONDestination) (logLevel : Int) (message : JSValue)
    (metadata : Obj) : Obj :=
  [("url", self.options.get "url"), ("method", self.options.get "method"),
   ("headers", self.options.get "headers"), ("json", JSValue.boolean true),
   ("body", JSValue.object [("logLevel", JSValue.number logLevel), ("message", message),
                            ("metadata", JSValue.object metadata)])]

/-- Method `log` (`httpjson.js` lines 68-86). The promisified `request` of the library of
that name is a parameter: it gives the promise returned for the request options. -/
def log (self : HTTPJSONDestination) (request : Obj → Completion JSValue) (logLevel : Int)
    (message : JSValue) (metadata : Obj) : DestinationResult :=
  { metadata := metadata
    effects := [Effect.request (self.requestOptions logLevel message metadata)]
    completion := request (self.requestOptions logLevel message metadata) }

/-- The HTTP destination as an object with a `log` method. -/
def toDestination (self : HTTPJSONDestination) (request : Obj → Completion JSValue) :
    Destination :=
  { log := Member.method (self.log request) }

end HTTPJSONDestination

/-! ## Destinations used in the examples -/

namespace Examples

/-- The destination `new ConsoleDestination({})`. -/
def console : Destination := (ConsoleDestination.new []).toDestination

/-- The destination `new HTTPJSONDestination({url: "http://localhost/log", method: "POST"})`
with a network on which every request succeeds. -/
def http : Destination :=
  HTTPJSONDestination.toDestination
    { options := [("url", JSValue.string "http://localhost/log"),
                  ("method", JSValue.string "POST"), ("headers", JSValue.object [])] }
    (fun _ => Completion.resolved JSValue.undefined)

/-- A file system on which every call succeeds; `openSync` returns the descriptor 3. -/
def fs : FileSystem :=
  { openSync := fun _ _ => Outcome.returned 3
    writeSync := fun _ _ => Outcome.returned ()
    fsyncSync := fun _ => Outcome.returned () }

/-- A file system on which no file can be opened. -/
def fsNoOpen : FileSystem :=
  { openSync := fun _ _ => Outcome.threw "ENOENT: no such file or directory"
    writeSync := fun _ _ => Outcome.returned ()
    fsyncSync := fun _ => Outcome.returned () }

/-- The options `filename: "app.log", logTransactionID: true`. -/
def fileOptions : Obj :=
  [("filename", JSValue.string "app.log"), ("logTransactionID", JSValue.boolean true)]

/-- The destination that `new FileDestination(fileOptions)` builds on the file system
`fs`. -/
def file : FileDestination :=
  { options := defaults fileOptions FileDestination.defaultOptions, file := 3 }

/-- The destination `new ConsoleDestination` with `logTimestamp: true`. -/
def consoleTimestamp : ConsoleDestination :=
  ConsoleDestination.new [("logTimestamp", JSValue.boolean true)]

/-- The destination `new ConsoleDestination` with `logTransactionID: true`. -/
def consoleTransaction : ConsoleDestination :=
  ConsoleDestination.new [("logTransactionID", JSValue.boolean true)]

/-- The options `url: "http://localhost/log", method: "POST"`, without headers. -/
def httpOptions : Obj :=
  [("url", JSValue.string "http://localhost/log"), ("method", JSValue.string "POST")]

/-- The destination `new HTTPJSONDestination(httpOptions)` with a network on which every
request fails. -/
def httpDown : Destination :=
  HTTPJSONDestination.toDestination
    { options := [("url", JSValue.string "http://localhost/log"),
                  ("method", JSValue.string "POST"), ("headers", JSValue.object [])] }
    (fun _ => Completion.rejected "connect ECONNREFUSED")

end Examples

/-! ## Properties of objects and of `defaults` -/

theorem Obj.get_set (o : Obj) (k j : String) (v : JSValue) :
    (o.set k v).get j = if k = j then v else o.get j := by
  induction o with
  | nil => simp [Obj.set, Obj.get]
  | cons p rest ih =>
    obtain ⟨key, w⟩ := p
    by_cases h : key = k
    · subst h
      by_cases hj : key = j <;> simp [Obj.set, Obj.get, hj]
    · by_cases hj : key = j
      · subst hj
        have hk : ¬ k = key := fun e => h e.symm
        simp [Obj.set, Obj.get, h, hk]
      · simp [Obj.set, Obj.get, h, hj, ih]

theorem Obj.hasKey_set (o : Obj) (k j : String) (v : JSValue) :
    (o.set k v).hasKey j = (decide (k = j) || o.hasKey j) := by
  induction o with
  | nil => simp [Obj.set, Obj.hasKey]
  | cons p rest ih =>
    obtain ⟨key, w⟩ := p
    by_cases h : key = k
    · subst h
      by_cases hj : key = j <;> simp [Obj.set, Obj.hasKey, hj]
    · by_cases hj : key = j
      · subst hj
        simp [Obj.set, Obj.hasKey, h]
      · simp [Obj.set, Obj.hasKey, h, hj, ih]

theorem Obj.hasKey_eq_true_iff (o : Obj) (k : String) : o.hasKey k = true ↔ k ∈ o.keys := by
  induction o with
  | nil => simp [Obj.hasKey, Obj.keys]
  | cons p rest ih =>
    obtain ⟨key, w⟩ := p
    by_cases h : key = k
    · simp [Obj.hasKey, Obj.keys, h]
    · have hk : ¬ k = key := fun e => h e.symm
      simp only [Obj.keys] at ih
      simp [Obj.hasKey, Obj.keys, h, hk, ih]

theorem Obj.get_of_hasKey_eq_false (o : Obj) (k : String) (h : o.hasKey k = false) :
    o.get k = JSValue.undefined := by
  induction o with
  | nil => simp [Obj.get]
  | cons p rest ih =>
    obtain ⟨key, w⟩ := p
    by_cases hk : key = k
    · simp [Obj.hasKey, hk] at h
    · simp only [Obj.hasKey, hk, if_false] at h
      simp [Obj.get, hk, ih h]

theorem Obj.hasKey_of_get_defined (o : Obj) (k : String) (h : (o.get k).isUndefined = false) :
    o.hasKey k = true := by
  by_contra hk
  have hk2 : o.hasKey k = false := by simpa using hk
  rw [Obj.get_of_hasKey_eq_false o k hk2] at h
  simp [JSValue.isUndefined] at h

theorem defaultsStep_get (s o : Obj) (k0 k : String) :
    (defaultsStep s o k0).get k
      = if k0 = k ∧ (o.get k).isUndefined = true then s.get k else o.get k := by
  unfold defaultsStep
  by_cases h0 : k0 = k
  · subst h0
    by_cases hu : (o.get k0).isUndefined = true
    · simp [hu, Obj.get_set]
    · simp [hu]
  · by_cases hu : (o.get k0).isUndefined = true
    · simp [hu, h0, Obj.get_set]
    · simp [hu, h0]

theorem defaultsStep_hasKey (s o : Obj) (k0 k : String) :
    (defaultsStep s o k0).hasKey k
      = (o.hasKey k || (decide (k0 = k) && (o.get k).isUndefined)) := by
  unfold defaultsStep
  by_cases h0 : k0 = k
  · subst h0
    by_cases hu : (o.get k0).isUndefined = true
    · simp [hu, Obj.hasKey_set]
    · simp [hu]
  · by_cases hu : (o.get k0).isUndefined = true
    · simp [hu, h0, Obj.hasKey_set]
    · simp [hu, h0]

theorem foldl_defaultsStep_get (s : Obj) (ks : List String) (o : Obj) (k : String) :
    (ks.foldl (defaultsStep s) o).get k
      = if k ∈ ks ∧ (o.get k).isUndefined = true then s.get k else o.get k := by
  induction ks generalizing o with
  | nil => simp
  | cons k0 ks ih =>
    rw [List.foldl_cons, ih, defaultsStep_get]
    by_cases h0 : k0 = k
    · subst h0
      by_cases hu : (o.get k0).isUndefined = true
      · simp [hu]
      · simp [hu]
    · have hk : ¬ k = k0 := fun e => h0 e.symm
      simp [h0, hk]

theorem foldl_defaultsStep_hasKey (s : Obj) (ks : List String) (o : Obj) (k : String) :
    (ks.foldl (defaultsStep s) o).hasKey k
      = (o.hasKey k || (decide (k ∈ ks) && (o.get k).isUndefined)) := by
  induction ks generalizing o with
  | nil => simp
  | cons k0 ks ih =>
    rw [List.foldl_cons, ih, defaultsStep_get, defaultsStep_hasKey]
    by_cases h0 : k0 = k
    · subst h0
      by_cases hu : (o.get k0).isUndefined = true
      · simp [hu]
      · simp [hu]
    · have hk : ¬ k = k0 := fun e => h0 e.symm
      simp [h0, hk]

/-- Reading a property of `defaults object source`: the value of `object` unless it is
`undefined`, then the value of `source`. -/
theorem defaults_get (object source : Obj) (k : String) :
    (defaults object source).get k
      = if (object.get k).isUndefined = true then source.get k else object.get k := by
  unfold defaults
  rw [foldl_defaultsStep_get]
  by_cases hu : (object.get k).isUndefined = true
  · by_cases hm : k ∈ source.keys
    · simp [hu, hm]
    · have hs : source.hasKey k = false := by
        cases hh : source.hasKey k with
        | false => rfl
        | true => exact absurd ((Obj.hasKey_eq_true_iff source k).1 hh) hm
      have ho : object.get k = JSValue.undefined := by
        cases hv : object.get k <;> simp [hv, JSValue.isUndefined] at hu ⊢
      simp [hu, hm, Obj.get_of_hasKey_eq_false source k hs, ho]
  · simp [hu]

/-- The keys of `defaults object source` are those of `object` and those of `source`. -/
theorem defaults_hasKey (object source : Obj) (k : String) :
    (defaults object source).hasKey k = (object.hasKey k || source.hasKey k) := by
  unfold defaults
  rw [foldl_defaultsStep_hasKey]
  by_cases hu : (object.get k).isUndefined = true
  · cases hs : source.hasKey k with
    | true =>
      have hm := (Obj.hasKey_eq_true_iff source k).1 hs
      simp [hu, hm]
    | false =>
      have hm : ¬ k ∈ source.keys := fun h => by
        rw [(Obj.hasKey_eq_true_iff source k).2 h] at hs
        cases hs
      simp [hu, hm]
  · have hf : (object.get k).isUndefined = false := by simpa using hu
    simp [hf, Obj.hasKey_of_get_defined object k hf]

/-! ## Properties of the guard and of the loop of `Logger.log` -/

theorem JSValue.typeof_ne_function (v : JSValue) : v.typeof ≠ "function" := by
  cases v <;> simp [JSValue.typeof]

theorem JSValue.typeof_eq_number_iff (v : JSValue) :
    v.typeof = "number" ↔ ∃ n, v = JSValue.number n := by
  cases v <;> simp [JSValue.typeof]

theorem JSValue.typeof_eq_undefined_iff (v : JSValue) :
    v.typeof = "undefined" ↔ v = JSValue.undefined := by
  cases v <;> simp [JSValue.typeof]

theorem Destination.hasLogMethod_data (v : JSValue) :
    Destination.hasLogMethod { log := Member.data v } = false := by
  simp [Destination.hasLogMethod, Member.typeof, JSValue.typeof_ne_function]

theorem Destination.hasLogMethod_method (f : DestinationLog) :
    Destination.hasLogMethod { log := Member.method f } = true := by
  simp [Destination.hasLogMethod, Member.typeof, Member.truthy]

theorem Logger.logCallback_data (self : Logger) (logLevel : Int) (message : JSValue)
    (index : Nat) (v : JSValue) (st : LogState) :
    self.logCallback logLevel message index { log := Member.data v } st = st := by
  unfold Logger.logCallback
  split
  · rfl
  · split <;> rfl

theorem Logger.logCallback_method (self : Logger) (logLevel : Int) (message : JSValue)
    (index : Nat) (f : DestinationLog) (st : LogState) (h : logLevel ≥ self.logLevel) :
    self.logCallback logLevel message index { log := Member.method f } st
      = { metadata := (f logLevel message st.metadata).metadata
          loggingPromises := st.loggingPromises ++ [(f logLevel message st.metadata).completion]
          calls := st.calls ++ [{ destination := index, logLevel := logLevel,
                                  message := message, metadata := st.metadata }]
          effects := st.effects ++ (f logLevel message st.metadata).effects } := by
  simp [Logger.logCallback, Member.truthy, Member.typeof, h]

theorem Logger.logCallback_below (self : Logger) (logLevel : Int) (message : JSValue)
    (index : Nat) (destination : Destination) (st : LogState) (h : logLevel < self.logLevel) :
    self.logCallback logLevel message index destination st = st := by
  have hn : ¬ logLevel ≥ self.logLevel := not_le.mpr h
  unfold Logger.logCallback
  split
  · rfl
  · simp [hn]

theorem Logger.forEachDestination_below (self : Logger) (logLevel : Int) (message : JSValue)
    (h : logLevel < self.logLevel) (l : List Destination) (index : Nat) (st : LogState) :
    self.forEachDestination logLevel message index l st = st := by
  induction l generalizing index st with
  | nil => rfl
  | cons d rest ih =>
    simp [Logger.forEachDestination, Logger.logCallback_below self logLevel message index d st h,
      ih]

theorem Logger.forEachDestination_calls (self : Logger) (logLevel : Int) (message : JSValue)
    (h : logLevel ≥ self.logLevel) (l : List Destination) (index : Nat) (st : LogState) :
    (self.forEachDestination logLevel message index l st).calls.map Call.destination
      = st.calls.map Call.destination ++ callablePositions index l := by
  induction l generalizing index st with
  | nil => simp [Logger.forEachDestination, callablePositions]
  | cons d rest ih =>
    obtain ⟨m⟩ := d
    cases m with
    | data v =>
      simp [Logger.forEachDestination, callablePositions, Logger.logCallback_data,
        Destination.hasLogMethod_data, ih]
    | method f =>
      simp [Logger.forEachDestination, callablePositions, Logger.logCallback_method _ _ _ _ _ _ h,
        Destination.hasLogMethod_method, ih]

theorem Logger.forEachDestination_args (self : Logger) (logLevel : Int) (message : JSValue)
    (l : List Destination) (index : Nat) (st : LogState)
    (hst : ∀ c ∈ st.calls, c.logLevel = logLevel ∧ c.message = message) :
    ∀ c ∈ (self.forEachDestination logLevel message index l st).calls,
      c.logLevel = logLevel ∧ c.message = message := by
  induction l generalizing index st with
  | nil => simpa [Logger.forEachDestination] using hst
  | cons d rest ih =>
    simp only [Logger.forEachDestination]
    apply ih
    obtain ⟨m⟩ := d
    cases m with
    | data v => simpa [Logger.logCallback_data] using hst
    | method f =>
      by_cases h : logLevel ≥ self.logLevel
      · rw [Logger.logCallback_method _ _ _ _ _ _ h]
        intro c hc
        simp only [List.mem_append, List.mem_singleton] at hc
        rcases hc with hc | hc
        · exact hst c hc
        · subst hc
          exact ⟨rfl, rfl⟩
      · rw [Logger.logCallback_below _ _ _ _ _ _ (not_le.mp h)]
        exact hst

theorem callablePositions_ge (l : List Destination) (index j : Nat)
    (hj : j ∈ callablePositions index l) : index ≤ j := by
  induction l generalizing index with
  | nil => simp [callablePositions] at hj
  | cons d rest ih =>
    unfold callablePositions at hj
    split at hj
    · rcases List.mem_cons.1 hj with e | hm
      · omega
      · have := ih (index + 1) hm
        omega
    · have := ih (index + 1) hj
      omega

/-- In `callablePositions` the position `index + i` of the `i`-th destination occurs once
when that destination has a `log` method and does not occur otherwise. -/
theorem callablePositions_count (l : List Destination) (index i : Nat) (d : Destination)
    (hd : l[i]? = some d) :
    (callablePositions index l).count (index + i) = if d.hasLogMethod then 1 else 0 := by
  induction l generalizing index i with
  | nil => simp at hd
  | cons e rest ih =>
    cases i with
    | zero =>
      simp only [List.getElem?_cons_zero, Option.some.injEq] at hd
      subst hd
      have hnot : ¬ index ∈ callablePositions (index + 1) rest := fun hm => by
        have := callablePositions_ge rest (index + 1) index hm
        omega
      have h0 : (callablePositions (index + 1) rest).count index = 0 :=
        List.count_eq_zero_of_not_mem hnot
      unfold callablePositions
      by_cases hc : e.hasLogMethod = true
      · simp [hc, h0]
      · simp [hc, h0]
    | succ i =>
      simp only [List.getElem?_cons_succ] at hd
      have hrec := ih (index + 1) i hd
      have he : index + 1 + i = index + (i + 1) := by omega
      rw [he] at hrec
      unfold callablePositions
      by_cases hc : e.hasLogMethod = true
      · have hne : ¬ index = index + (i + 1) := by omega
        simp [hc, hrec, List.count_cons, hne]
      · simp [hc, hrec]

theorem Logger.log_invalid_level (self : Logger) (level message : JSValue)
    (metadata : Option Obj) (hlevel : level.typeof ≠ "number") :
    self.log level message metadata
      = { result := Outcome.returned (Completion.rejected "Log Level should be a number")
          logger := self, metadata := metadata, calls := [], effects := [] } := by
  cases level <;> simp [Logger.log, JSValue.typeof] at hlevel ⊢

theorem Logger.log_valid (self : Logger) (level : Int) (message : JSValue)
    (metadata : Option Obj) (hmsg : message ≠ JSValue.undefined) :
    self.log (JSValue.number level) message metadata
      = { result := Outcome.returned (Promise.all
            (self.forEachDestination level message 0 self.destinations
              { metadata := defaults (metadata.getD []) self.defaultMetadata
                loggingPromises := [], calls := [], effects := [] }).loggingPromises)
          logger := self
          metadata := metadata.map (fun _ =>
            (self.forEachDestination level message 0 self.destinations
              { metadata := defaults (metadata.getD []) self.defaultMetadata
                loggingPromises := [], calls := [], effects := [] }).metadata)
          calls := (self.forEachDestination level message 0 self.destinations
              { metadata := defaults (metadata.getD []) self.defaultMetadata
                loggingPromises := [], calls := [], effects := [] }).calls
          effects := (self.forEachDestination level message 0 self.destinations
              { metadata := defaults (metadata.getD []) self.defaultMetadata
                loggingPromises := [], calls := [], effects := [] }).effects } := by
  have h : ¬ message.typeof = "undefined" := fun e =>
    hmsg ((JSValue.typeof_eq_undefined_iff message).1 e)
  cases metadata <;> simp [Logger.log, h]

theorem Logger.forEachDestination_first_call (self : Logger) (logLevel : Int)
    (message : JSValue) (l : List Destination) (index : Nat) (st : LogState) :
    ∃ extra, (self.forEachDestination logLevel message index l st).calls = st.calls ++ extra
      ∧ ∀ c, extra.head? = some c → c.metadata = st.metadata := by
  induction l generalizing index st with
  | nil => exact ⟨[], by simp [Logger.forEachDestination], by simp⟩
  | cons d rest ih =>
    simp only [Logger.forEachDestination]
    obtain ⟨m⟩ := d
    cases m with
    | data v =>
      rw [Logger.logCallback_data]
      exact ih (index + 1) st
    | method f =>
      by_cases h : logLevel ≥ self.logLevel
      · rw [Logger.logCallback_method _ _ _ _ _ _ h]
        obtain ⟨extra, he, _⟩ := ih (index + 1)
          { metadata := (f logLevel message st.metadata).metadata
            loggingPromises := st.loggingPromises ++ [(f logLevel message st.metadata).completion]
            calls := st.calls ++ [{ destination := index, logLevel := logLevel,
                                    message := message, metadata := st.metadata }]
            effects := st.effects ++ (f logLevel message st.metadata).effects }
        refine ⟨{ destination := index, logLevel := logLevel, message := message,
                  metadata := st.metadata } :: extra, ?_, ?_⟩
        · rw [he]
          simp
        · intro c hc
          simp only [List.head?_cons, Option.some.injEq] at hc
          rw [← hc]
      · rw [Logger.logCallback_below _ _ _ _ _ _ (not_le.mp h)]
        exact ih (index + 1) st

theorem Logger.forEachDestination_read_only (self : Logger) (logLevel : Int)
    (message : JSValue) (l : List Destination) (index : Nat) (st : LogState)
    (hro : ∀ d ∈ l, ∀ f, d.log = Member.method f → ∀ lv m o, (f lv m o).metadata = o) :
    (self.forEachDestination logLevel message index l st).metadata = st.metadata
      ∧ ∀ c ∈ (self.forEachDestination logLevel message index l st).calls,
          c ∈ st.calls ∨ c.metadata = st.metadata := by
  induction l generalizing index st with
  | nil => exact ⟨rfl, fun c hc => Or.inl hc⟩
  | cons d rest ih =>
    have hrest : ∀ d ∈ rest, ∀ f, d.log = Member.method f → ∀ lv m o, (f lv m o).metadata = o :=
      fun e he => hro e (List.mem_cons_of_mem d he)
    simp only [Logger.forEachDestination]
    obtain ⟨m⟩ := d
    cases m with
    | data v =>
      rw [Logger.logCallback_data]
      exact ih (index + 1) st hrest
    | method f =>
      by_cases h : logLevel ≥ self.logLevel
      · rw [Logger.logCallback_method _ _ _ _ _ _ h]
        have hf : (f logLevel message st.metadata).metadata = st.metadata :=
          hro { log := Member.method f } (List.mem_cons_self _ _) f rfl _ _ _
        obtain ⟨h1, h2⟩ := ih (index + 1)
          { metadata := (f logLevel message st.metadata).metadata
            loggingPromises := st.loggingPromises ++ [(f logLevel message st.metadata).completion]
            calls := st.calls ++ [{ destination := index, logLevel := logLevel,
                                    message := message, metadata := st.metadata }]
            effects := st.effects ++ (f logLevel message st.metadata).effects } hrest
        refine ⟨h1.trans hf, ?_⟩
        intro c hc
        rcases h2 c hc with hm | hm
        · simp only [List.mem_append, List.mem_singleton] at hm
          rcases hm with hm | hm
          · exact Or.inl hm
          · right
            rw [hm]
        · right
          rw [hm]
          exact hf
      · rw [Logger.logCallback_below _ _ _ _ _ _ (not_le.mp h)]
        exact ih (index + 1) st hrest

theorem Promise.all_not_rejected (ps : List (Completion JSValue))
    (h : ∀ p ∈ ps, ∀ e, p ≠ Completion.rejected e) :
    ∀ e, Promise.all ps ≠ Completion.rejected e := by
  induction ps with
  | nil => intro e; simp [Promise.all]
  | cons p ps ih =>
    have ih2 := ih (fun q hq => h q (List.mem_cons_of_mem p hq))
    have hp := h p (List.mem_cons_self _ _)
    intro e
    cases p with
    | rejected e0 => exact absurd rfl (hp e0)
    | pending =>
      unfold Promise.all
      cases hall : Promise.all ps with
      | rejected e1 => exact absurd hall (ih2 e1)
      | pending => simp
      | resolved vs => simp
    | resolved v =>
      unfold Promise.all
      cases hall : Promise.all ps with
      | rejected e1 => exact absurd hall (ih2 e1)
      | pending => simp
      | resolved vs => simp

theorem Logger.forEachDestination_promises (self : Logger) (logLevel : Int)
    (message : JSValue) (l : List Destination) (index : Nat) (st : LogState)
    (hok : ∀ d ∈ l, ∀ f, d.log = Member.method f →
      ∀ lv m o e, (f lv m o).completion ≠ Completion.rejected e)
    (hst : ∀ p ∈ st.loggingPromises, ∀ e, p ≠ Completion.rejected e) :
    ∀ p ∈ (self.forEachDestination logLevel message index l st).loggingPromises,
      ∀ e, p ≠ Completion.rejected e := by
  induction l generalizing index st with
  | nil => simpa [Logger.forEachDestination] using hst
  | cons d rest ih =>
    have hrest : ∀ d ∈ rest, ∀ f, d.log = Member.method f →
        ∀ lv m o e, (f lv m o).completion ≠ Completion.rejected e :=
      fun e he => hok e (List.mem_cons_of_mem d he)
    simp only [Logger.forEachDestination]
    apply ih _ _ hrest
    obtain ⟨m⟩ := d
    cases m with
    | data v =>
      rw [Logger.logCallback_data]
      exact hst
    | method f =>
      by_cases h : logLevel ≥ self.logLevel
      · rw [Logger.logCallback_method _ _ _ _ _ _ h]
        intro p hp
        simp only [List.mem_append, List.mem_singleton] at hp
        rcases hp with hp | hp
        · exact hst p hp
        · rw [hp]
          exact hok { log := Member.method f } (List.mem_cons_self _ _) f rfl _ _ _
      · rw [Logger.logCallback_below _ _ _ _ _ _ (not_le.mp h)]
        exact hst

theorem Logger.attachAll_append (l : List Destination) (self : Logger)
    (hl : ∀ d ∈ l, ∃ f, d.log = Member.method f) :
    self.attachAll l
      = (Outcome.returned (), { self with destinations := self.destinations ++ l }) := by
  induction l generalizing self with
  | nil => simp [Logger.attachAll]
  | cons d rest ih =>
    obtain ⟨f, hf⟩ := hl d (List.mem_cons_self _ _)
    have hrest : ∀ e ∈ rest, ∃ f, e.log = Member.method f :=
      fun e he => hl e (List.mem_cons_of_mem d he)
    have hattach : self.attachDestination d
        = (Outcome.returned (), { self with destinations := self.destinations ++ [d] }) := by
      simp [Logger.attachDestination, hf, Member.truthy, Member.typeof]
    simp only [Logger.attachAll, hattach]
    rw [ih _ hrest]
    simp

/-! ## Properties of the console and file destinations -/

theorem defaultMetadata_get (m : Obj) (k : String) :
    (defaults m ConsoleDestination.defaultMetadata).get k
      = if (m.get k).isUndefined = true
          ∧ (k = "processID" ∨ k = "timestamp" ∨ k = "transactionID")
        then JSValue.boolean false else m.get k := by
  rw [defaults_get]
  by_cases hu : (m.get k).isUndefined = true
  · have hm : m.get k = JSValue.undefined := by
      cases hv : m.get k <;> simp [hv, JSValue.isUndefined] at hu ⊢
    by_cases h1 : k = "processID"
    · simp [hu, h1, ConsoleDestination.defaultMetadata, Obj.get]
    · by_cases h2 : k = "timestamp"
      · simp [hu, h2, ConsoleDestination.defaultMetadata, Obj.get]
      · by_cases h3 : k = "transactionID"
        · simp [hu, h3, ConsoleDestination.defaultMetadata, Obj.get]
        · have e1 : ¬ "processID" = k := fun e => h1 e.symm
          have e2 : ¬ "timestamp" = k := fun e => h2 e.symm
          have e3 : ¬ "transactionID" = k := fun e => h3 e.symm
          simp [hu, h1, h2, h3, e1, e2, e3, ConsoleDestination.defaultMetadata, Obj.get, hm]
  · simp [hu]

theorem defaultMetadata_hasKey (m : Obj) (k : String) :
    (defaults m ConsoleDestination.defaultMetadata).hasKey k
      = (m.hasKey k || decide (k = "processID" ∨ k = "timestamp" ∨ k = "transactionID")) := by
  rw [defaults_hasKey]
  by_cases h1 : k = "processID"
  · simp [h1, ConsoleDestination.defaultMetadata, Obj.hasKey]
  · by_cases h2 : k = "timestamp"
    · simp [h2, ConsoleDestination.defaultMetadata, Obj.hasKey]
    · by_cases h3 : k = "transactionID"
      · simp [h3, ConsoleDestination.defaultMetadata, Obj.hasKey]
      · have e1 : ¬ "processID" = k := fun e => h1 e.symm
        have e2 : ¬ "timestamp" = k := fun e => h2 e.symm
        have e3 : ¬ "transactionID" = k := fun e => h3 e.symm
        simp [h1, h2, h3, e1, e2, e3, ConsoleDestination.defaultMetadata, Obj.hasKey]

theorem defaultMetadata_truthy (m : Obj) (k : String) :
    ((defaults m ConsoleDestination.defaultMetadata).get k).truthy = (m.get k).truthy := by
  rw [defaultMetadata_get]
  split
  · rename_i h
    have hm : m.get k = JSValue.undefined := by
      cases hv : m.get k <;> simp [hv, JSValue.isUndefined] at h ⊢
    simp [hm, JSValue.truthy]
  · rfl

theorem defaultMetadata_get_of_truthy (m : Obj) (k : String) (h : (m.get k).truthy = true) :
    (defaults m ConsoleDestination.defaultMetadata).get k = m.get k := by
  rw [defaultMetadata_get]
  split
  · rename_i hu
    have hm : m.get k = JSValue.undefined := by
      cases hv : m.get k <;> simp [hv, JSValue.isUndefined] at hu ⊢
    rw [hm] at h
    simp [JSValue.truthy] at h
  · rfl

theorem toISOString_not_date (v : JSValue) (h : ∀ iso text, v ≠ JSValue.date iso text) :
    ∃ e, toISOString v = Except.error e := by
  cases v with
  | date iso text => exact absurd rfl (h iso text)
  | _ => exact ⟨_, rfl⟩

theorem ConsoleDestination.processPrefix_defaults (options m : Obj) :
    ConsoleDestination.processPrefix options (defaults m ConsoleDestination.defaultMetadata)
      = if ((options.get "logProcessID").truthy && (m.get "processID").truthy) = true
        then "Process: " ++ (m.get "processID").toStringJS ++ " - " else "" := by
  unfold ConsoleDestination.processPrefix
  rw [defaultMetadata_truthy]
  by_cases hf : (options.get "logProcessID").truthy = true
  · by_cases hp : (m.get "processID").truthy = true
    · simp [hf, hp, defaultMetadata_get_of_truthy m "processID" hp]
    · simp [hf, hp]
  · simp [hf]

theorem ConsoleDestination.transactionPrefix_defaults (options m : Obj) :
    ConsoleDestination.transactionPrefix options
        (defaults m ConsoleDestination.defaultMetadata)
      = if ((options.get "logTransactionID").truthy && (m.get "transactionID").truthy) = true
        then "Transaction: " ++ (m.get "transactionID").toStringJS ++ " - " else "" := by
  unfold ConsoleDestination.transactionPrefix
  rw [defaultMetadata_truthy]
  by_cases hf : (options.get "logTransactionID").truthy = true
  · by_cases hp : (m.get "transactionID").truthy = true
    · simp [hf, hp, defaultMetadata_get_of_truthy m "transactionID" hp]
    · simp [hf, hp]
  · simp [hf]

theorem FileDestination.file_processPrefix_defaults (options m : Obj) :
    FileDestination.processPrefix options (defaults m FileDestination.defaultMetadata)
      = if ((options.get "logProcessID").truthy && (m.get "processID").truthy) = true
        then "Process: " ++ (m.get "processID").toStringJS ++ " - " else "" :=
  ConsoleDestination.processPrefix_defaults options m

theorem FileDestination.file_transactionPrefix_defaults (options m : Obj) :
    FileDestination.transactionPrefix options (defaults m FileDestination.defaultMetadata)
      = if ((options.get "logTransactionID").truthy && (m.get "transactionID").truthy) = true
        then "Transaction ID: " ++ (m.get "transactionID").toStringJS ++ " - " else "" := by
  unfold FileDestination.transactionPrefix
  have ht := defaultMetadata_truthy m "transactionID"
  change ((defaults m FileDestination.defaultMetadata).get "transactionID").truthy = _ at ht
  rw [ht]
  by_cases hf : (options.get "logTransactionID").truthy = true
  · by_cases hp : (m.get "transactionID").truthy = true
    · have hg := defaultMetadata_get_of_truthy m "transactionID" hp
      change (defaults m FileDestination.defaultMetadata).get "transactionID" = _ at hg
      simp [hf, hp, hg]
    · simp [hf, hp]
  · simp [hf]

/-- When the timestamp is not asked for or is falsy the timestamp prefix is empty, and when
it is asked for and is a `Date` the prefix is its ISO rendering followed by `" - "`. -/
theorem ConsoleDestination.timestampPrefix_ok (options m : Obj) (stamp : String)
    (hstamp : (((options.get "logTimestamp").truthy && (m.get "timestamp").truthy) = false
        ∧ stamp = "")
      ∨ ((options.get "logTimestamp").truthy = true
        ∧ ∃ iso text, m.get "timestamp" = JSValue.date iso text ∧ stamp = iso ++ " - ")) :
    ConsoleDestination.timestampPrefix options (defaults m ConsoleDestination.defaultMetadata)
      = Except.ok stamp := by
  unfold ConsoleDestination.timestampPrefix
  rw [defaultMetadata_truthy]
  rcases hstamp with ⟨hoff, hs⟩ | ⟨hf, iso, text, hd, hs⟩
  · subst hs
    by_cases hf : (options.get "logTimestamp").truthy = true
    · have hp : (m.get "timestamp").truthy = false := by simpa [hf] using hoff
      simp [hf, hp]
    · simp [hf]
  · subst hs
    have hp : (m.get "timestamp").truthy = true := by rw [hd]; rfl
    rw [defaultMetadata_get_of_truthy m "timestamp" hp, hd, if_pos hf]
    rfl

theorem ConsoleDestination.timestampPrefix_error (options m : Obj)
    (hf : (options.get "logTimestamp").truthy = true)
    (hp : (m.get "timestamp").truthy = true)
    (hnd : ∀ iso text, m.get "timestamp" ≠ JSValue.date iso text) :
    ∃ e, ConsoleDestination.timestampPrefix options
        (defaults m ConsoleDestination.defaultMetadata) = Except.error e := by
  obtain ⟨e, he⟩ := toISOString_not_date _ hnd
  refine ⟨e, ?_⟩
  unfold ConsoleDestination.timestampPrefix
  rw [defaultMetadata_truthy, defaultMetadata_get_of_truthy m "timestamp" hp, he]
  simp [hf, hp]

theorem FileDestination.file_timestampPrefix_ok (options m : Obj) (stamp : String)
    (hstamp : (((options.get "logTimestamp").truthy && (m.get "timestamp").truthy) = false
        ∧ stamp = "")
      ∨ ((options.get "logTimestamp").truthy = true
        ∧ ∃ iso text, m.get "timestamp" = JSValue.date iso text ∧ stamp = iso ++ " - ")) :
    FileDestination.timestampPrefix options (defaults m FileDestination.defaultMetadata)
      = Except.ok stamp :=
  ConsoleDestination.timestampPrefix_ok options m stamp hstamp

theorem FileDestination.file_timestampPrefix_error (options m : Obj)
    (hf : (options.get "logTimestamp").truthy = true)
    (hp : (m.get "timestamp").truthy = true)
    (hnd : ∀ iso text, m.get "timestamp" ≠ JSValue.date iso text) :
    ∃ e, FileDestination.timestampPrefix options
        (defaults m FileDestination.defaultMetadata) = Except.error e :=
  ConsoleDestination.timestampPrefix_error options m hf hp hnd

theorem ConsoleDestination.log_formatted (self : ConsoleDestination) (level : Int)
    (message : JSValue) (m : Obj) (stamp : String)
    (hstamp : (((self.options.get "logTimestamp").truthy && (m.get "timestamp").truthy) = false
        ∧ stamp = "")
      ∨ ((self.options.get "logTimestamp").truthy = true
        ∧ ∃ iso text, m.get "timestamp" = JSValue.date iso text ∧ stamp = iso ++ " - ")) :
    self.log level message m
      = { metadata := defaults m ConsoleDestination.defaultMetadata
          effects :=
            if level ≥ LogLevels.Error then
              [Effect.consoleError
                ((if ((self.options.get "logProcessID").truthy
                      && (m.get "processID").truthy) = true
                  then "Process: " ++ (m.get "processID").toStringJS ++ " - " else "")
                ++ stamp
                ++ (if ((self.options.get "logTransactionID").truthy
                        && (m.get "transactionID").truthy) = true
                    then "Transaction: " ++ (m.get "transactionID").toStringJS ++ " - "
                    else "")
                ++ message.toStringJS)]
            else
              [Effect.consoleLog
                ((if ((self.options.get "logProcessID").truthy
                      && (m.get "processID").truthy) = true
                  then "Process: " ++ (m.get "processID").toStringJS ++ " - " else "")
                ++ stamp
                ++ (if ((self.options.get "logTransactionID").truthy
                        && (m.get "transactionID").truthy) = true
                    then "Transaction: " ++ (m.get "transactionID").toStringJS ++ " - "
                    else "")
                ++ message.toStringJS)]
          completion := Completion.resolved JSValue.undefined } := by
  unfold ConsoleDestination.log
  simp only [ConsoleDestination.timestampPrefix_ok self.options m stamp hstamp,
    ConsoleDestination.processPrefix_defaults, ConsoleDestination.transactionPrefix_defaults,
    String.empty_append]

theorem ConsoleDestination.log_not_formatted (self : ConsoleDestination) (level : Int)
    (message : JSValue) (m : Obj)
    (hf : (self.options.get "logTimestamp").truthy = true)
    (hp : (m.get "timestamp").truthy = true)
    (hnd : ∀ iso text, m.get "timestamp" ≠ JSValue.date iso text) :
    ∃ e, self.log level message m
      = { metadata := defaults m ConsoleDestination.defaultMetadata
          effects := []
          completion := Completion.rejected e } := by
  obtain ⟨e, he⟩ := ConsoleDestination.timestampPrefix_error self.options m hf hp hnd
  refine ⟨e, ?_⟩
  unfold ConsoleDestination.log
  simp only [he]

theorem forall₂_append_singleton {α β : Type} (R : α → β → Prop) (as : List α) (bs : List β)
    (a : α) (b : β) (h : List.Forall₂ R as bs) (hab : R a b) :
    List.Forall₂ R (as ++ [a]) (bs ++ [b]) := by
  induction h with
  | nil => exact List.Forall₂.cons hab List.Forall₂.nil
  | cons h1 _ ih => exact List.Forall₂.cons h1 ih

/-- The loop applies the `log` method of each destination that it invokes: the promises,
the output and the metadata that it leaves are those that the invocations returned. -/
theorem Logger.forEachDestination_results (self : Logger) (logLevel : Int)
    (message : JSValue) (ds : List Destination) (m0 : Obj) (l : List Destination)
    (index : Nat) (st : LogState) (pre : List Destination) (rs : List DestinationResult)
    (hds : ds = pre ++ l) (hpre : pre.length = index)
    (h1 : List.Forall₂ (fun c r => ∃ d f, ds[c.destination]? = some d
        ∧ d.log = Member.method f ∧ r = f c.logLevel c.message c.metadata) st.calls rs)
    (h2 : st.loggingPromises = rs.map (fun r => r.completion))
    (h3 : st.effects = rs.flatMap (fun r => r.effects))
    (h4 : st.calls.map Call.metadata ++ [st.metadata] = m0 :: rs.map (fun r => r.metadata)) :
    ∃ rs2 : List DestinationResult,
      List.Forall₂ (fun c r => ∃ d f, ds[c.destination]? = some d
          ∧ d.log = Member.method f ∧ r = f c.logLevel c.message c.metadata)
        (self.forEachDestination logLevel message index l st).calls rs2
      ∧ (self.forEachDestination logLevel message index l st).loggingPromises
          = rs2.map (fun r => r.completion)
      ∧ (self.forEachDestination logLevel message index l st).effects
          = rs2.flatMap (fun r => r.effects)
      ∧ (self.forEachDestination logLevel message index l st).calls.map Call.metadata
            ++ [(self.forEachDestination logLevel message index l st).metadata]
          = m0 :: rs2.map (fun r => r.metadata) := by
  induction l generalizing index st pre rs with
  | nil => exact ⟨rs, h1, h2, h3, h4⟩
  | cons d rest ih =>
    simp only [Logger.forEachDestination]
    have hget : ds[index]? = some d := by
      rw [hds, List.getElem?_append_right (by omega)]
      simp [hpre]
    obtain ⟨m⟩ := d
    cases m with
    | data v =>
      rw [Logger.logCallback_data]
      exact ih (index + 1) st (pre ++ [{ log := Member.data v }]) rs (by simp [hds])
        (by simp [hpre]) h1 h2 h3 h4
    | method f =>
      by_cases h : logLevel ≥ self.logLevel
      · rw [Logger.logCallback_method _ _ _ _ _ _ h]
        apply ih (index + 1) _ (pre ++ [{ log := Member.method f }])
          (rs ++ [f logLevel message st.metadata]) (by simp [hds]) (by simp [hpre])
        · exact forall₂_append_singleton _ _ _ _ _ h1 ⟨_, f, hget, rfl, rfl⟩
        · simp [h2]
        · simp [h3]
        · have h5 : List.map Call.metadata st.calls ++ [st.metadata]
              ++ [(f logLevel message st.metadata).metadata]
              = (m0 :: rs.map (fun r => r.metadata))
                ++ [(f logLevel message st.metadata).metadata] := by rw [h4]
          simpa using h5
      · rw [Logger.logCallback_below _ _ _ _ _ _ (not_le.mp h)]
        exact ih (index + 1) st (pre ++ [{ log := Member.method f }]) rs (by simp [hds])
          (by simp [hpre]) h1 h2 h3 h4

/-! ## The claims -/

/-- C1: for a logger of minimum level `M`, a numeric level `L` and a defined message, when
`L >= M` the call `log(L, message, metadata)` invokes every attached destination that has
a `log` method exactly once and no other entry, in the order of the list: it applies the
`log` of each to `L`, the message and the metadata object, the first with the merged
metadata and each next one with the object as the one before left it, and what the
invocations return is what `log` produces, their output in order and `Promise.all` of
their promises. When `L < M` it invokes no destination, produces no output and the
returned promise is resolved. -/
theorem Logger.log_level_filter (self : Logger) (level : Int) (message : JSValue)
    (metadata : Option Obj) (hmsg : message ≠ JSValue.undefined) :
    (level ≥ self.logLevel →
      (self.log (JSValue.number level) message metadata).calls.map Call.destination
          = callablePositions 0 self.destinations
        ∧ (∀ i d, self.destinations[i]? = some d →
            ((self.log (JSValue.number level) message metadata).calls.map Call.destination).count i
              = if d.hasLogMethod then 1 else 0)
        ∧ (∀ c ∈ (self.log (JSValue.number level) message metadata).calls,
            c.logLevel = level ∧ c.message = message)
        ∧ ∃ rs : List DestinationResult,
          List.Forall₂ (fun c r => ∃ d f, self.destinations[c.destination]? = some d
              ∧ d.log = Member.method f ∧ r = f c.logLevel c.message c.metadata)
            (self.log (JSValue.number level) message metadata).calls rs
          ∧ (self.log (JSValue.number level) message metadata).effects
              = rs.flatMap (fun r => r.effects)
          ∧ (self.log (JSValue.number level) message metadata).result
              = Outcome.returned (Promise.all (rs.map (fun r => r.completion)))
          ∧ (self.log (JSValue.number level) message metadata).calls.map Call.metadata
              = (defaults (metadata.getD []) self.defaultMetadata
                  :: rs.map (fun r => r.metadata)).dropLast)
    ∧ (level < self.logLevel →
      (self.log (JSValue.number level) message metadata).calls = []
        ∧ (self.log (JSValue.number level) message metadata).effects = []
        ∧ (self.log (JSValue.number level) message metadata).result
            = Outcome.returned (Completion.resolved [])) := by
  rw [Logger.log_valid self level message metadata hmsg]
  constructor
  · intro h
    have hc := Logger.forEachDestination_calls self level message h self.destinations 0
      { metadata := defaults (metadata.getD []) self.defaultMetadata
        loggingPromises := [], calls := [], effects := [] }
    simp only [List.map_nil, List.nil_append] at hc
    refine ⟨hc, ?_, ?_, ?_⟩
    · intro i d hd
      simp only [hc]
      have := callablePositions_count self.destinations 0 i d hd
      simpa using this
    · exact Logger.forEachDestination_args self level message self.destinations 0 _
        (by simp)
    · obtain ⟨rs, r1, r2, r3, r4⟩ := Logger.forEachDestination_results self level message
        self.destinations (defaults (metadata.getD []) self.defaultMetadata)
        self.destinations 0
        { metadata := defaults (metadata.getD []) self.defaultMetadata
          loggingPromises := [], calls := [], effects := [] } [] [] rfl rfl
        List.Forall₂.nil rfl rfl rfl
      refine ⟨rs, r1, r3, by rw [r2], ?_⟩
      rw [← r4, List.dropLast_concat]
  · intro h
    simp [Logger.forEachDestination_below self level message h, Promise.all]

/-- C1, the scenario of the specification: minimum level Warning, one console destination,
`log(Info, "hello")` invokes nothing, prints nothing and resolves; and on the same logger
`log(Error, "boom")` invokes the destination once, which prints `"boom"` on the error
stream. -/
theorem Logger.log_level_filter_witness :
    JSValue.string "hello" ≠ JSValue.undefined
    ∧ LogLevels.Info < LogLevels.Warning
    ∧ ((({ destinations := [Examples.console]
           logLevel := LogLevels.Warning, defaultMetadata := [] } : Logger).log
         (JSValue.number LogLevels.Info) (JSValue.string "hello") none).calls = []
      ∧ (({ destinations := [Examples.console]
            logLevel := LogLevels.Warning, defaultMetadata := [] } : Logger).log
          (JSValue.number LogLevels.Info) (JSValue.string "hello") none).effects = []
      ∧ (({ destinations := [Examples.console]
            logLevel := LogLevels.Warning, defaultMetadata := [] } : Logger).log
          (JSValue.number LogLevels.Info) (JSValue.string "hello") none).result
          = Outcome.returned (Completion.resolved []))
    ∧ LogLevels.Error ≥ LogLevels.Warning
    ∧ (({ destinations := [Examples.console]
          logLevel := LogLevels.Warning, defaultMetadata := [] } : Logger).log
        (JSValue.number LogLevels.Error) (JSValue.string "boom") none).calls.map
          Call.destination = [0]
    ∧ (({ destinations := [Examples.console]
          logLevel := LogLevels.Warning, defaultMetadata := [] } : Logger).log
        (JSValue.number LogLevels.Error) (JSValue.string "boom") none).effects
        = [Effect.consoleError "boom"]
    ∧ (({ destinations := [Examples.console]
          logLevel := LogLevels.Warning, defaultMetadata := [] } : Logger).log
        (JSValue.number LogLevels.Error) (JSValue.string "boom") none).result
        = Outcome.returned (Completion.resolved [JSValue.undefined]) :=
  ⟨by decide, by decide,
    (Logger.log_level_filter
      { destinations := [Examples.console]
        logLevel := LogLevels.Warning, defaultMetadata := [] }
      LogLevels.Info (JSValue.string "hello") none (by decide)).2 (by decide),
    by decide,
    ((Logger.log_level_filter
      { destinations := [Examples.console]
        logLevel := LogLevels.Warning, defaultMetadata := [] }
      LogLevels.Error (JSValue.string "boom") none (by decide)).1 (by decide)).1,
    by decide, by decide⟩

/-- C3 (the code at the failing input): on a new logger with a console destination,
`setLogLevel(Warning)` returns without storing the level: the minimum level is still Info,
and the following `log(Info, "hello")` is passed to the destination, which prints it. -/
theorem Logger.setLogLevel_does_not_store :
    ((Logger.new.attachDestination Examples.console).2.setLogLevel
        (JSValue.number LogLevels.Warning)).1 = Outcome.returned ()
    ∧ ((Logger.new.attachDestination Examples.console).2.setLogLevel
        (JSValue.number LogLevels.Warning)).2.logLevel = LogLevels.Info
    ∧ LogLevels.Info < LogLevels.Warning
    ∧ ((((Logger.new.attachDestination Examples.console).2.setLogLevel
        (JSValue.number LogLevels.Warning)).2.log
          (JSValue.number LogLevels.Info) (JSValue.string "hello") none).calls.map
            Call.destination) = [0]
    ∧ (((Logger.new.attachDestination Examples.console).2.setLogLevel
        (JSValue.number LogLevels.Warning)).2.log
          (JSValue.number LogLevels.Info) (JSValue.string "hello") none).effects
        = [Effect.consoleLog "hello"] := by
  refine ⟨by decide, by decide, by decide, by decide, by decide⟩

/-- C4: whatever the logger and the numeric level, `log(level, undefined)` returns a promise
rejected with "Message is not defined" and invokes no destination. -/
theorem Logger.log_undefined_message (self : Logger) (level : Int) (metadata : Option Obj) :
    (self.log (JSValue.number level) JSValue.undefined metadata).result
        = Outcome.returned (Completion.rejected "Message is not defined")
    ∧ (self.log (JSValue.number level) JSValue.undefined metadata).calls = []
    ∧ (self.log (JSValue.number level) JSValue.undefined metadata).effects = [] := by
  simp [Logger.log, JSValue.typeof]

/-- C5: whatever the logger and the message, `log(level, message)` with a level that is not
a number returns (it does not throw) a promise rejected with "Log Level should be a number"
and invokes no destination. -/
theorem Logger.log_level_not_number (self : Logger) (level message : JSValue)
    (metadata : Option Obj) (hlevel : level.typeof ≠ "number") :
    (self.log level message metadata).result
        = Outcome.returned (Completion.rejected "Log Level should be a number")
    ∧ (self.log level message metadata).calls = []
    ∧ (self.log level message metadata).effects = [] := by
  rw [Logger.log_invalid_level self level message metadata hlevel]
  exact ⟨rfl, rfl, rfl⟩

/-- C5 at the level `"not-a-number"`, on a logger with a console destination. -/
theorem Logger.log_level_not_number_witness :
    (JSValue.string "not-a-number").typeof ≠ "number"
    ∧ ((Logger.new.attachDestination Examples.console).2.log
        (JSValue.string "not-a-number") (JSValue.string "msg") none).result
        = Outcome.returned (Completion.rejected "Log Level should be a number")
    ∧ ((Logger.new.attachDestination Examples.console).2.log
        (JSValue.string "not-a-number") (JSValue.string "msg") none).calls = []
    ∧ ((Logger.new.attachDestination Examples.console).2.log
        (JSValue.string "not-a-number") (JSValue.string "msg") none).effects = [] :=
  ⟨by decide, Logger.log_level_not_number _ _ _ _ (by decide)⟩

/-- C2 (amended): for a defined message, the metadata object that `log` passes to the
first destination it invokes has the keys of the per-call mapping (empty when none is
passed) and of the default metadata and no other, and reads at every key as the per-call
value unless that is `undefined`, then as the default value; when no attached destination
writes to the metadata it is handed, every invoked destination receives that mapping. -/
theorem Logger.log_merged_metadata (self : Logger) (level : Int) (message : JSValue)
    (metadata : Option Obj) (hmsg : message ≠ JSValue.undefined) :
    (∀ c, (self.log (JSValue.number level) message metadata).calls.head? = some c →
      ∀ k, c.metadata.hasKey k
            = ((metadata.getD []).hasKey k || self.defaultMetadata.hasKey k)
        ∧ c.metadata.get k
            = if ((metadata.getD []).get k).isUndefined = true then self.defaultMetadata.get k
              else (metadata.getD []).get k)
    ∧ ((∀ d ∈ self.destinations, ∀ f, d.log = Member.method f →
          ∀ lv m o, (f lv m o).metadata = o) →
      ∀ c ∈ (self.log (JSValue.number level) message metadata).calls,
      ∀ k, c.metadata.hasKey k
            = ((metadata.getD []).hasKey k || self.defaultMetadata.hasKey k)
        ∧ c.metadata.get k
            = if ((metadata.getD []).get k).isUndefined = true then self.defaultMetadata.get k
              else (metadata.getD []).get k) := by
  rw [Logger.log_valid self level message metadata hmsg]
  constructor
  · intro c hc k
    obtain ⟨extra, he, hhead⟩ := Logger.forEachDestination_first_call self level message
      self.destinations 0
      { metadata := defaults (metadata.getD []) self.defaultMetadata
        loggingPromises := [], calls := [], effects := [] }
    simp only [he, List.nil_append] at hc
    have hm := hhead c hc
    simp only at hm
    rw [hm]
    exact ⟨defaults_hasKey _ _ k, defaults_get _ _ k⟩
  · intro hro c hc k
    obtain ⟨_, hcalls⟩ := Logger.forEachDestination_read_only self level message
      self.destinations 0
      { metadata := defaults (metadata.getD []) self.defaultMetadata
        loggingPromises := [], calls := [], effects := [] } hro
    rcases hcalls c hc with hm | hm
    · simp at hm
    · simp only at hm
      rw [hm]
      exact ⟨defaults_hasKey _ _ k, defaults_get _ _ k⟩

/-- C2 (amended) on a logger with default metadata `processID: "p1", transactionID: "t0"`
called with `transactionID: "t1"`: a console destination, invoked first, receives
`transactionID: "t1"` and `processID: "p1"`, and so does each of two HTTP destinations,
which do not write to the metadata. -/
theorem Logger.log_merged_metadata_witness :
    JSValue.string "m" ≠ JSValue.undefined
    ∧ (({ destinations := [Examples.console], logLevel := LogLevels.Info
          defaultMetadata := [("processID", JSValue.string "p1"),
                              ("transactionID", JSValue.string "t0")] } : Logger).log
        (JSValue.number LogLevels.Info) (JSValue.string "m")
        (some [("transactionID", JSValue.string "t1")])).calls.head?
        = some { destination := 0, logLevel := LogLevels.Info, message := JSValue.string "m"
                 metadata := [("transactionID", JSValue.string "t1"),
                              ("processID", JSValue.string "p1")] }
    ∧ (∀ k, Obj.hasKey [("transactionID", JSValue.string "t1"),
                        ("processID", JSValue.string "p1")] k
          = (Obj.hasKey [("transactionID", JSValue.string "t1")] k
              || Obj.hasKey [("processID", JSValue.string "p1"),
                             ("transactionID", JSValue.string "t0")] k)
        ∧ Obj.get [("transactionID", JSValue.string "t1"),
                   ("processID", JSValue.string "p1")] k
          = if (Obj.get [("transactionID", JSValue.string "t1")] k).isUndefined = true
            then Obj.get [("processID", JSValue.string "p1"),
                          ("transactionID", JSValue.string "t0")] k
            else Obj.get [("transactionID", JSValue.string "t1")] k)
    ∧ (∀ c ∈ (({ destinations := [Examples.http, Examples.http], logLevel := LogLevels.Info
                 defaultMetadata := [("processID", JSValue.string "p1"),
                                     ("transactionID", JSValue.string "t0")] } : Logger).log
          (JSValue.number LogLevels.Info) (JSValue.string "m")
          (some [("transactionID", JSValue.string "t1")])).calls,
        c.metadata.get "transactionID" = JSValue.string "t1"
        ∧ c.metadata.get "processID" = JSValue.string "p1") :=
  ⟨by decide, by decide,
    (Logger.log_merged_metadata
      { destinations := [Examples.console], logLevel := LogLevels.Info
        defaultMetadata := [("processID", JSValue.string "p1"),
                            ("transactionID", JSValue.string "t0")] }
      LogLevels.Info (JSValue.string "m") (some [("transactionID", JSValue.string "t1")])
      (by decide)).1
      { destination := 0, logLevel := LogLevels.Info, message := JSValue.string "m"
        metadata := [("transactionID", JSValue.string "t1"),
                     ("processID", JSValue.string "p1")] }
      (by decide),
    fun c hc =>
      have h := (Logger.log_merged_metadata
        { destinations := [Examples.http, Examples.http], logLevel := LogLevels.Info
          defaultMetadata := [("processID", JSValue.string "p1"),
                              ("transactionID", JSValue.string "t0")] }
        LogLevels.Info (JSValue.string "m") (some [("transactionID", JSValue.string "t1")])
        (by decide)).2
        (by
          intro d hd f hf lv m o
          have hd2 : d = Examples.http := by
            simp only [List.mem_cons, List.mem_singleton, List.not_mem_nil, or_false,
              or_self] at hd
            exact hd
          subst hd2
          simp only [Examples.http, HTTPJSONDestination.toDestination,
            Member.method.injEq] at hf
          subst hf
          rfl) c hc
      ⟨(h "transactionID").2, (h "processID").2⟩⟩

/-- C2 as stated fails. A per-call key whose value is `undefined` does not win: with
default metadata `a: 1` and per-call metadata `a: undefined` the destination receives
`a: 1`. And a destination invoked after a console destination receives the keys that the
console destination wrote into the shared object: with empty default and per-call
metadata, the second destination receives `processID`, `timestamp` and `transactionID`. -/
theorem Logger.log_merged_metadata_counterexample :
    (({ destinations := [Examples.console]
        logLevel := LogLevels.Info
        defaultMetadata := [("a", JSValue.number 1)] } : Logger).log
      (JSValue.number LogLevels.Info) (JSValue.string "m")
      (some [("a", JSValue.undefined)])).calls
      = [{ destination := 0, logLevel := LogLevels.Info, message := JSValue.string "m"
           metadata := [("a", JSValue.number 1)] }]
    ∧ Obj.hasKey [("a", JSValue.undefined)] "a" = true
    ∧ Obj.get [("a", JSValue.number 1)] "a" ≠ Obj.get [("a", JSValue.undefined)] "a"
    ∧ (({ destinations := [Examples.console,
                           Examples.console]
          logLevel := LogLevels.Info, defaultMetadata := [] } : Logger).log
        (JSValue.number LogLevels.Info) (JSValue.string "m") (some [])).calls
      = [{ destination := 0, logLevel := LogLevels.Info, message := JSValue.string "m"
           metadata := [] },
         { destination := 1, logLevel := LogLevels.Info, message := JSValue.string "m"
           metadata := [("processID", JSValue.boolean false),
                        ("timestamp", JSValue.boolean false),
                        ("transactionID", JSValue.boolean false)] }]
    ∧ Obj.hasKey [("processID", JSValue.boolean false), ("timestamp", JSValue.boolean false),
                  ("transactionID", JSValue.boolean false)] "processID" = true
    ∧ Obj.hasKey [] "processID" = false := by
  refine ⟨by decide, by decide, by decide, by decide, by decide, by decide⟩

/-- C6 (amended): for a defined message, when no attached destination returns a rejected
promise, `log(level, message)` returns a rejected promise exactly when the level is not a
number: every number, in the six `LogLevels` or not, is accepted. -/
theorem Logger.log_fails_iff_level_not_number (self : Logger) (level message : JSValue)
    (metadata : Option Obj) (hmsg : message ≠ JSValue.undefined)
    (hok : ∀ d ∈ self.destinations, ∀ f, d.log = Member.method f →
      ∀ lv m o e, (f lv m o).completion ≠ Completion.rejected e) :
    (∃ e, (self.log level message metadata).result
          = Outcome.returned (Completion.rejected e)) ↔ level.typeof ≠ "number" := by
  by_cases hnum : level.typeof = "number"
  · obtain ⟨n, hn⟩ := (JSValue.typeof_eq_number_iff level).1 hnum
    subst hn
    rw [Logger.log_valid self n message metadata hmsg]
    constructor
    · rintro ⟨e, he⟩
      simp only [Outcome.returned.injEq] at he
      exact absurd he (Promise.all_not_rejected _
        (Logger.forEachDestination_promises self n message self.destinations 0 _ hok
          (by simp)) e)
    · intro h
      exact absurd hnum h
  · rw [Logger.log_invalid_level self level message metadata hnum]
    exact ⟨fun _ => hnum, fun _ => ⟨_, rfl⟩⟩

/-- C6 (amended) at the level 7 on a logger with an HTTP destination whose requests
succeed: the promise returned by `log(7, "msg")` is not rejected. -/
theorem Logger.log_fails_iff_level_not_number_witness :
    JSValue.string "msg" ≠ JSValue.undefined
    ∧ ¬ (∃ e, (({ destinations := [Examples.http]
                  logLevel := LogLevels.Info, defaultMetadata := [] } : Logger).log
          (JSValue.number 7) (JSValue.string "msg") none).result
            = Outcome.returned (Completion.rejected e)) :=
  ⟨by decide, fun h =>
    ((Logger.log_fails_iff_level_not_number
      { destinations := [Examples.http], logLevel := LogLevels.Info, defaultMetadata := [] }
      (JSValue.number 7) (JSValue.string "msg") none (by decide)
      (by
        intro d hd f hf lv m o e
        simp only [List.mem_singleton] at hd
        subst hd
        simp only [Examples.http, HTTPJSONDestination.toDestination, Member.method.injEq] at hf
        subst hf
        simp [HTTPJSONDestination.log])).1 h) (by decide)⟩

/-- C6 as stated fails: on a new logger with a console destination, `log(7, "msg")`, whose
level is a number outside the six `LogLevels`, returns a resolved promise after the
destination has printed the message, and `log(-1, "msg")` returns a resolved promise too. -/
theorem Logger.log_level_outside_enumeration_counterexample :
    ((Logger.new.attachDestination Examples.console).2.log
        (JSValue.number 7) (JSValue.string "msg") none).result
      = Outcome.returned (Completion.resolved [JSValue.undefined])
    ∧ ((Logger.new.attachDestination Examples.console).2.log
        (JSValue.number 7) (JSValue.string "msg") none).effects
      = [Effect.consoleError "msg"]
    ∧ ((Logger.new.attachDestination Examples.console).2.log
        (JSValue.number (-1)) (JSValue.string "msg") none).result
      = Outcome.returned (Completion.resolved []) := by
  refine ⟨by decide, by decide, by decide⟩

/-- C7: for an object whose `log` member is not a function (absent, or any other value),
`attachDestination` throws and leaves the logger, its destination list included, as it
was. -/
theorem Logger.attachDestination_without_log (self : Logger) (destination : Destination)
    (hlog : ∀ f, destination.log ≠ Member.method f) :
    (self.attachDestination destination).1
        = Outcome.threw "Added destination has no log() method"
    ∧ (self.attachDestination destination).2 = self
    ∧ (self.attachDestination destination).2.destinations = self.destinations := by
  obtain ⟨m⟩ := destination
  cases m with
  | method f => exact absurd rfl (hlog f)
  | data v =>
    simp [Logger.attachDestination, Member.typeof, JSValue.typeof_ne_function]

/-- C7 for an object without a `log` member and for one whose `log` is a string, offered to
a logger that has a console destination. -/
theorem Logger.attachDestination_without_log_witness :
    (∀ f, ({ log := Member.data JSValue.undefined } : Destination).log ≠ Member.method f)
    ∧ ((Logger.new.attachDestination Examples.console).2.attachDestination
        { log := Member.data JSValue.undefined }).1
        = Outcome.threw "Added destination has no log() method"
    ∧ ((Logger.new.attachDestination Examples.console).2.attachDestination
        { log := Member.data JSValue.undefined }).2
        = (Logger.new.attachDestination Examples.console).2
    ∧ ((Logger.new.attachDestination Examples.console).2.attachDestination
        { log := Member.data JSValue.undefined }).2.destinations
        = (Logger.new.attachDestination Examples.console).2.destinations :=
  ⟨fun _ h => Member.noConfusion h,
    Logger.attachDestination_without_log _ { log := Member.data JSValue.undefined }
      (fun _ h => Member.noConfusion h)⟩

/-- C8: for a destination with a `log` method, `attachDestination` returns without throwing
and leaves the destination list with the destination added at its end, the minimum level
and the default metadata as they were; attaching the destinations of a list in order to a
new logger leaves exactly that list. -/
theorem Logger.attachDestination_appends (self : Logger) (destination : Destination)
    (l : List Destination) (hlog : ∃ f, destination.log = Member.method f)
    (hl : ∀ d ∈ l, ∃ f, d.log = Member.method f) :
    (self.attachDestination destination).1 = Outcome.returned ()
    ∧ (self.attachDestination destination).2.destinations = self.destinations ++ [destination]
    ∧ (self.attachDestination destination).2.logLevel = self.logLevel
    ∧ (self.attachDestination destination).2.defaultMetadata = self.defaultMetadata
    ∧ (Logger.new.attachAll l).1 = Outcome.returned ()
    ∧ (Logger.new.attachAll l).2.destinations = l
    ∧ (Logger.new.attachAll l).2.logLevel = LogLevels.Info
    ∧ (Logger.new.attachAll l).2.defaultMetadata = [] := by
  obtain ⟨f, hf⟩ := hlog
  rw [Logger.attachAll_append l Logger.new hl]
  simp [Logger.attachDestination, hf, Member.truthy, Member.typeof, Logger.new]

/-- C8 for a console destination attached to a logger that has an HTTP destination, and
for the list of a console and an HTTP destination attached to a new logger. -/
theorem Logger.attachDestination_appends_witness :
    (∃ f, Examples.console.log = Member.method f)
    ∧ (({ destinations := [Examples.http], logLevel := LogLevels.Error
          defaultMetadata := [("processID", JSValue.string "p1")] } : Logger).attachDestination
        Examples.console).2.destinations = [Examples.http] ++ [Examples.console]
    ∧ (Logger.new.attachAll [Examples.console, Examples.http]).2.destinations
        = [Examples.console, Examples.http] :=
  have h := Logger.attachDestination_appends
    { destinations := [Examples.http], logLevel := LogLevels.Error
      defaultMetadata := [("processID", JSValue.string "p1")] }
    Examples.console [Examples.console, Examples.http] ⟨_, rfl⟩
    (by
      intro d hd
      simp only [List.mem_cons, List.mem_singleton, List.not_mem_nil, or_false] at hd
      rcases hd with hd | hd
      · exact ⟨_, by rw [hd]; rfl⟩
      · exact ⟨_, by rw [hd]; rfl⟩)
  ⟨⟨_, rfl⟩, h.2.1, h.2.2.2.2.2.1⟩

/-- C10 (amended): the merged metadata is not a copy. When the caller passes a mapping and
the message is defined, `log` fills that mapping in place: if no destination is invoked
(the level is below the minimum) or no attached destination writes to the metadata, the
caller's mapping after the call is `defaults` of it and the default metadata, with the
keys of both, each key reading as the caller's value unless that was `undefined`, then as
the default value. -/
theorem Logger.log_fills_caller_metadata (self : Logger) (level : Int) (message : JSValue)
    (metadata : Obj) (hmsg : message ≠ JSValue.undefined)
    (hro : level < self.logLevel ∨ ∀ d ∈ self.destinations, ∀ f, d.log = Member.method f →
      ∀ lv m o, (f lv m o).metadata = o) :
    (self.log (JSValue.number level) message (some metadata)).metadata
        = some (defaults metadata self.defaultMetadata)
    ∧ ∀ k, (defaults metadata self.defaultMetadata).hasKey k
            = (metadata.hasKey k || self.defaultMetadata.hasKey k)
        ∧ (defaults metadata self.defaultMetadata).get k
            = if (metadata.get k).isUndefined = true then self.defaultMetadata.get k
              else metadata.get k := by
  refine ⟨?_, fun k => ⟨defaults_hasKey _ _ k, defaults_get _ _ k⟩⟩
  rw [Logger.log_valid self level message (some metadata) hmsg]
  rcases hro with hlt | hro
  · simp [Logger.forEachDestination_below self level message hlt]
  · have h := (Logger.forEachDestination_read_only self level message self.destinations 0
      { metadata := defaults ((some metadata).getD []) self.defaultMetadata
        loggingPromises := [], calls := [], effects := [] } hro).1
    simp only [Option.map_some', h]
    rfl

/-- C10 (amended) on a logger of minimum level Info with default metadata
`processID: "p1"` and a console destination: after `log(Debug, "m", P)` with `P` holding
`transactionID: "t1"`, `P` holds `transactionID: "t1"` and `processID: "p1"`. -/
theorem Logger.log_fills_caller_metadata_witness :
    JSValue.string "m" ≠ JSValue.undefined
    ∧ LogLevels.Debug < LogLevels.Info
    ∧ (({ destinations := [Examples.console]
          logLevel := LogLevels.Info
          defaultMetadata := [("processID", JSValue.string "p1")] } : Logger).log
        (JSValue.number LogLevels.Debug) (JSValue.string "m")
        (some [("transactionID", JSValue.string "t1")])).metadata
      = some [("transactionID", JSValue.string "t1"), ("processID", JSValue.string "p1")] :=
  ⟨by decide, by decide,
    (Logger.log_fills_caller_metadata
      { destinations := [Examples.console]
        logLevel := LogLevels.Info
        defaultMetadata := [("processID", JSValue.string "p1")] }
      LogLevels.Debug (JSValue.string "m") [("transactionID", JSValue.string "t1")]
      (by decide) (Or.inl (by decide))).1⟩

/-- C10 as stated fails: on a logger with default metadata `processID: "p1"` and no
destination, after `log(Info, "m", P)` with `P` holding `transactionID: "t1"` alone, `P`
also holds the key `processID` of the default metadata. -/
theorem Logger.log_caller_metadata_counterexample :
    (({ destinations := [], logLevel := LogLevels.Info
        defaultMetadata := [("processID", JSValue.string "p1")] } : Logger).log
      (JSValue.number LogLevels.Info) (JSValue.string "m")
      (some [("transactionID", JSValue.string "t1")])).metadata
      = some [("transactionID", JSValue.string "t1"), ("processID", JSValue.string "p1")]
    ∧ Obj.hasKey [("transactionID", JSValue.string "t1")] "processID" = false
    ∧ Obj.hasKey [("transactionID", JSValue.string "t1"), ("processID", JSValue.string "p1")]
        "processID" = true := by
  refine ⟨by decide, by decide, by decide⟩

/-! ## The destinations: metadata, formatted line, constructors -/

theorem FileDestination.file_log_formatted (self : FileDestination) (fs : FileSystem) (level : Int)
    (message : JSValue) (m : Obj) (stamp : String)
    (hstamp : (((self.options.get "logTimestamp").truthy && (m.get "timestamp").truthy) = false
        ∧ stamp = "")
      ∨ ((self.options.get "logTimestamp").truthy = true
        ∧ ∃ iso text, m.get "timestamp" = JSValue.date iso text ∧ stamp = iso ++ " - ")) :
    self.log fs level message m
      = match fs.writeSync self.file
          ((if ((self.options.get "logProcessID").truthy && (m.get "processID").truthy) = true
              then "Process: " ++ (m.get "processID").toStringJS ++ " - " else "")
            ++ stamp
            ++ (if ((self.options.get "logTransactionID").truthy
                    && (m.get "transactionID").truthy) = true
                then "Transaction ID: " ++ (m.get "transactionID").toStringJS ++ " - " else "")
            ++ message.toStringJS ++ "\n") with
        | Outcome.threw e =>
          { metadata := defaults m FileDestination.defaultMetadata
            effects := [Effect.fsWriteSync self.file
              ((if ((self.options.get "logProcessID").truthy
                    && (m.get "processID").truthy) = true
                then "Process: " ++ (m.get "processID").toStringJS ++ " - " else "")
              ++ stamp
              ++ (if ((self.options.get "logTransactionID").truthy
                      && (m.get "transactionID").truthy) = true
                  then "Transaction ID: " ++ (m.get "transactionID").toStringJS ++ " - "
                  else "")
              ++ message.toStringJS ++ "\n")]
            completion := Completion.rejected e }
        | Outcome.returned _ =>
          { metadata := defaults m FileDestination.defaultMetadata
            effects := [Effect.fsWriteSync self.file
              ((if ((self.options.get "logProcessID").truthy
                    && (m.get "processID").truthy) = true
                then "Process: " ++ (m.get "processID").toStringJS ++ " - " else "")
              ++ stamp
              ++ (if ((self.options.get "logTransactionID").truthy
                      && (m.get "transactionID").truthy) = true
                  then "Transaction ID: " ++ (m.get "transactionID").toStringJS ++ " - "
                  else "")
              ++ message.toStringJS ++ "\n"), Effect.fsFsyncSync self.file]
            completion :=
              match fs.fsyncSync self.file with
              | Outcome.threw e => Completion.rejected e
              | Outcome.returned _ => Completion.resolved JSValue.undefined } := by
  unfold FileDestination.log
  simp only [FileDestination.file_timestampPrefix_ok self.options m stamp hstamp,
    FileDestination.file_processPrefix_defaults, FileDestination.file_transactionPrefix_defaults,
    String.empty_append]
  split
  · rfl
  · split <;> rfl

theorem FileDestination.file_log_not_formatted (self : FileDestination) (fs : FileSystem)
    (level : Int) (message : JSValue) (m : Obj)
    (hf : (self.options.get "logTimestamp").truthy = true)
    (hp : (m.get "timestamp").truthy = true)
    (hnd : ∀ iso text, m.get "timestamp" ≠ JSValue.date iso text) :
    ∃ e, self.log fs level message m
      = { metadata := defaults m FileDestination.defaultMetadata
          effects := []
          completion := Completion.rejected e } := by
  obtain ⟨e, he⟩ := FileDestination.file_timestampPrefix_error self.options m hf hp hnd
  refine ⟨e, ?_⟩
  unfold FileDestination.log
  simp only [he]

/-- Either the timestamp prefix can be built, or the timestamp is asked for and is a truthy
value that is not a `Date`. -/
theorem timestamp_cases (options m : Obj) :
    (∃ stamp, (((options.get "logTimestamp").truthy && (m.get "timestamp").truthy) = false
        ∧ stamp = "")
      ∨ ((options.get "logTimestamp").truthy = true
        ∧ ∃ iso text, m.get "timestamp" = JSValue.date iso text ∧ stamp = iso ++ " - "))
    ∨ ((options.get "logTimestamp").truthy = true ∧ (m.get "timestamp").truthy = true
        ∧ ∀ iso text, m.get "timestamp" ≠ JSValue.date iso text) := by
  by_cases hf : (options.get "logTimestamp").truthy = true
  · by_cases hp : (m.get "timestamp").truthy = true
    · cases hv : m.get "timestamp" with
      | date iso text => exact Or.inl ⟨iso ++ " - ", Or.inr ⟨hf, iso, text, rfl, rfl⟩⟩
      | _ =>
        right
        refine ⟨hf, ?_, ?_⟩
        · rw [← hv]; exact hp
        · intro iso text h
          cases h
    · exact Or.inl ⟨"", Or.inl ⟨by simp [hf, hp], rfl⟩⟩
  · exact Or.inl ⟨"", Or.inl ⟨by simp [hf], rfl⟩⟩

/-- C11 (amended): the console and the file destination write to the metadata they are
handed. After `log(level, message, m)` the mapping `m` has its keys and the three keys
`processID`, `timestamp`, `transactionID`; each of these three that `m` lacked or held as
`undefined` is `false`, and every other key reads as before. -/
theorem destinations_fill_metadata (console : ConsoleDestination) (file : FileDestination)
    (fs : FileSystem) (level : Int) (message : JSValue) (m : Obj) (k : String) :
    ((console.log level message m).metadata.hasKey k
        = (m.hasKey k || decide (k = "processID" ∨ k = "timestamp" ∨ k = "transactionID"))
      ∧ (console.log level message m).metadata.get k
        = if (m.get k).isUndefined = true
            ∧ (k = "processID" ∨ k = "timestamp" ∨ k = "transactionID")
          then JSValue.boolean false else m.get k)
    ∧ ((file.log fs level message m).metadata.hasKey k
        = (m.hasKey k || decide (k = "processID" ∨ k = "timestamp" ∨ k = "transactionID"))
      ∧ (file.log fs level message m).metadata.get k
        = if (m.get k).isUndefined = true
            ∧ (k = "processID" ∨ k = "timestamp" ∨ k = "transactionID")
          then JSValue.boolean false else m.get k) := by
  have hc : (console.log level message m).metadata
      = defaults m ConsoleDestination.defaultMetadata := by
    rcases timestamp_cases console.options m with ⟨stamp, hs⟩ | ⟨h1, h2, h3⟩
    · rw [ConsoleDestination.log_formatted console level message m stamp hs]
    · obtain ⟨e, he⟩ := ConsoleDestination.log_not_formatted console level message m h1 h2 h3
      rw [he]
  have hf : (file.log fs level message m).metadata
      = defaults m ConsoleDestination.defaultMetadata := by
    rcases timestamp_cases file.options m with ⟨stamp, hs⟩ | ⟨h1, h2, h3⟩
    · rw [FileDestination.file_log_formatted file fs level message m stamp hs]
      split <;> rfl
    · obtain ⟨e, he⟩ :=
        FileDestination.file_log_not_formatted file fs level message m h1 h2 h3
      rw [he]
      rfl
  rw [hc, hf]
  exact ⟨⟨defaultMetadata_hasKey m k, defaultMetadata_get m k⟩,
    ⟨defaultMetadata_hasKey m k, defaultMetadata_get m k⟩⟩

/-- C11 as stated fails: after `log(Info, "x", m)` of a console destination with `m` empty,
`m` holds `processID`, `timestamp` and `transactionID`, all `false`; after the same call of
a file destination with `m` holding `transactionID: "abc123"` alone, `m` also holds
`processID` and `timestamp`. -/
theorem destinations_metadata_counterexample :
    ((ConsoleDestination.new []).log LogLevels.Info (JSValue.string "x") []).metadata
      = [("processID", JSValue.boolean false), ("timestamp", JSValue.boolean false),
         ("transactionID", JSValue.boolean false)]
    ∧ Obj.hasKey [] "processID" = false
    ∧ (Examples.file.log Examples.fs LogLevels.Info (JSValue.string "x")
        [("transactionID", JSValue.string "abc123")]).metadata
      = [("transactionID", JSValue.string "abc123"), ("processID", JSValue.boolean false),
         ("timestamp", JSValue.boolean false)]
    ∧ Obj.hasKey [("transactionID", JSValue.string "abc123")] "processID" = false := by
  refine ⟨by decide, by decide, by decide, by decide⟩

/-- C12 (the code at the failing input): a console destination with `logTimestamp`
enabled, called with the message `"x"` and a metadata whose `timestamp` is present as the
string `"2020-01-01T00:00:00.000Z"`, writes no line: the call of `toISOString` throws in
the executor and the promise is rejected, where the claim and the docstring of `log` give
the line `"2020-01-01T00:00:00.000Z - x"`. -/
theorem ConsoleDestination.log_string_timestamp :
    (Examples.consoleTimestamp.options.get "logTimestamp").truthy = true
    ∧ (Obj.get [("timestamp", JSValue.string "2020-01-01T00:00:00.000Z")] "timestamp").truthy
      = true
    ∧ (Examples.consoleTimestamp.log LogLevels.Info (JSValue.string "x")
        [("timestamp", JSValue.string "2020-01-01T00:00:00.000Z")]).effects = []
    ∧ (Examples.consoleTimestamp.log LogLevels.Info (JSValue.string "x")
        [("timestamp", JSValue.string "2020-01-01T00:00:00.000Z")]).effects
      ≠ [Effect.consoleLog "2020-01-01T00:00:00.000Z - x"]
    ∧ (Examples.consoleTimestamp.log LogLevels.Info (JSValue.string "x")
        [("timestamp", JSValue.string "2020-01-01T00:00:00.000Z")]).completion
      = Completion.rejected
          "TypeError: metadata.timestamp.toISOString is not a function" := by
  refine ⟨by decide, by decide, by decide, by decide, by decide⟩

/-- C13 (the code at the failing input): a console destination with `logTimestamp`
enabled, called at the level Error with the message `"boom"` and a metadata whose
`timestamp` is the string `"2020-01-01T00:00:00.000Z"`, writes to neither stream and
returns a rejected promise; without the timestamp the same call writes `"boom"` to the
error stream and its promise is resolved. -/
theorem ConsoleDestination.log_writes_to_no_stream :
    (Examples.consoleTimestamp.log LogLevels.Error (JSValue.string "boom")
        [("timestamp", JSValue.string "2020-01-01T00:00:00.000Z")]).effects = []
    ∧ (Examples.consoleTimestamp.log LogLevels.Error (JSValue.string "boom")
        [("timestamp", JSValue.string "2020-01-01T00:00:00.000Z")]).completion
      = Completion.rejected
          "TypeError: metadata.timestamp.toISOString is not a function"
    ∧ (Examples.consoleTimestamp.log LogLevels.Error (JSValue.string "boom") []).effects
      = [Effect.consoleError "boom"]
    ∧ (Examples.consoleTimestamp.log LogLevels.Error (JSValue.string "boom") []).completion
      = Completion.resolved JSValue.undefined := by
  refine ⟨by decide, by decide, by decide, by decide⟩

/-- C14: a `FileDestination.log` whose promise is resolved has made exactly two calls to
the file system, a write to the open file of the formatted line followed by one newline
and then a sync of that file; the formatted line is `"Process: <processID> - "` (if
`logProcessID` is enabled and `metadata.processID` is truthy), the ISO rendering of the
timestamp and `" - "` (if `logTimestamp` is enabled and `metadata.timestamp` is truthy,
then a `Date`), `"Transaction ID: <transactionID> - "` (if `logTransactionID` is enabled
and `metadata.transactionID` is truthy) and the message. And the promise is resolved
whenever the line can be formatted and the write and the sync succeed. -/
theorem FileDestination.log_appends_line (self : FileDestination) (fs : FileSystem)
    (level : Int) (message : JSValue) (m : Obj) :
    (∀ v, (self.log fs level message m).completion = Completion.resolved v →
      ∃ stamp : String,
        ((((self.options.get "logTimestamp").truthy && (m.get "timestamp").truthy) = false
            ∧ stamp = "")
          ∨ ((self.options.get "logTimestamp").truthy = true
            ∧ ∃ iso text, m.get "timestamp" = JSValue.date iso text ∧ stamp = iso ++ " - "))
        ∧ (self.log fs level message m).effects
          = [Effect.fsWriteSync self.file
              ((if ((self.options.get "logProcessID").truthy
                    && (m.get "processID").truthy) = true
                then "Process: " ++ (m.get "processID").toStringJS ++ " - " else "")
              ++ stamp
              ++ (if ((self.options.get "logTransactionID").truthy
                      && (m.get "transactionID").truthy) = true
                  then "Transaction ID: " ++ (m.get "transactionID").toStringJS ++ " - "
                  else "")
              ++ message.toStringJS ++ "\n"),
             Effect.fsFsyncSync self.file])
    ∧ (∀ stamp : String,
        ((((self.options.get "logTimestamp").truthy && (m.get "timestamp").truthy) = false
            ∧ stamp = "")
          ∨ ((self.options.get "logTimestamp").truthy = true
            ∧ ∃ iso text, m.get "timestamp" = JSValue.date iso text ∧ stamp = iso ++ " - ")) →
        fs.writeSync self.file
            ((if ((self.options.get "logProcessID").truthy
                  && (m.get "processID").truthy) = true
              then "Process: " ++ (m.get "processID").toStringJS ++ " - " else "")
            ++ stamp
            ++ (if ((self.options.get "logTransactionID").truthy
                    && (m.get "transactionID").truthy) = true
                then "Transaction ID: " ++ (m.get "transactionID").toStringJS ++ " - "
                else "")
            ++ message.toStringJS ++ "\n") = Outcome.returned () →
        fs.fsyncSync self.file = Outcome.returned () →
        (self.log fs level message m).completion = Completion.resolved JSValue.undefined) := by
  constructor
  · intro v hv
    rcases timestamp_cases self.options m with ⟨stamp, hs⟩ | ⟨h1, h2, h3⟩
    · refine ⟨stamp, hs, ?_⟩
      rw [FileDestination.file_log_formatted self fs level message m stamp hs] at hv ⊢
      split at hv
      · cases hv
      · rename_i hw
        simp only [hw]
    · obtain ⟨e, he⟩ :=
        FileDestination.file_log_not_formatted self fs level message m h1 h2 h3
      rw [he] at hv
      cases hv
  · intro stamp hs hw hsync
    rw [FileDestination.file_log_formatted self fs level message m stamp hs]
    simp only [hw, hsync]

/-- C14, the scenario of the specification: with `logTransactionID` enabled,
`log(Info, "x", m)` with `m` holding `transactionID: "abc123"` is resolved and has
written `"Transaction ID: abc123 - x\n"` to the file and synced it. -/
theorem FileDestination.log_appends_line_witness :
    FileDestination.new Examples.fs Examples.fileOptions
      = (Outcome.returned Examples.file,
         [Effect.fsOpenSync (JSValue.string "app.log") "a"])
    ∧ (Examples.file.log Examples.fs LogLevels.Info (JSValue.string "x")
        [("transactionID", JSValue.string "abc123")]).completion
      = Completion.resolved JSValue.undefined
    ∧ (Examples.file.log Examples.fs LogLevels.Info (JSValue.string "x")
        [("transactionID", JSValue.string "abc123")]).effects
      = [Effect.fsWriteSync 3 "Transaction ID: abc123 - x\n", Effect.fsFsyncSync 3]
    ∧ ∃ stamp : String,
        ((((Examples.file.options.get "logTimestamp").truthy
              && (Obj.get [("transactionID", JSValue.string "abc123")] "timestamp").truthy)
            = false ∧ stamp = "")
          ∨ ((Examples.file.options.get "logTimestamp").truthy = true
            ∧ ∃ iso text, Obj.get [("transactionID", JSValue.string "abc123")] "timestamp"
                = JSValue.date iso text ∧ stamp = iso ++ " - "))
        ∧ (Examples.file.log Examples.fs LogLevels.Info (JSValue.string "x")
            [("transactionID", JSValue.string "abc123")]).effects
          = [Effect.fsWriteSync Examples.file.file
              ((if ((Examples.file.options.get "logProcessID").truthy
                    && (Obj.get [("transactionID", JSValue.string "abc123")]
                          "processID").truthy) = true
                then "Process: "
                  ++ (Obj.get [("transactionID", JSValue.string "abc123")]
                        "processID").toStringJS ++ " - "
                else "")
              ++ stamp
              ++ (if ((Examples.file.options.get "logTransactionID").truthy
                      && (Obj.get [("transactionID", JSValue.string "abc123")]
                            "transactionID").truthy) = true
                  then "Transaction ID: "
                    ++ (Obj.get [("transactionID", JSValue.string "abc123")]
                          "transactionID").toStringJS ++ " - "
                  else "")
              ++ (JSValue.string "x").toStringJS ++ "\n"),
             Effect.fsFsyncSync Examples.file.file] :=
  ⟨by decide, by decide, by decide,
    (FileDestination.log_appends_line Examples.file Examples.fs LogLevels.Info
      (JSValue.string "x") [("transactionID", JSValue.string "abc123")]).1
      JSValue.undefined (by decide)⟩

theorem HTTPJSONDestination.new_returned (options : Obj) (d : HTTPJSONDestination)
    (hnew : HTTPJSONDestination.new options = Outcome.returned d) :
    d.options = defaults options HTTPJSONDestination.defaultOptions
    ∧ ((defaults options HTTPJSONDestination.defaultOptions).get "url").truthy = true
    ∧ ((defaults options HTTPJSONDestination.defaultOptions).get "method").truthy = true := by
  unfold HTTPJSONDestination.new at hnew
  by_cases h1 : ((defaults options HTTPJSONDestination.defaultOptions).get "url").truthy = true
  · by_cases h2 :
        ((defaults options HTTPJSONDestination.defaultOptions).get "method").truthy = true
    · simp only [h1, h2, Bool.not_true, Bool.false_eq_true, if_false,
        Outcome.returned.injEq] at hnew
      exact ⟨by rw [← hnew], h1, h2⟩
    · simp [h1, h2] at hnew
  · simp [h1] at hnew

theorem HTTPJSONDestination.http_defaultOptions_get (options : Obj) :
    ((defaults options HTTPJSONDestination.defaultOptions).get "url").truthy
        = (options.get "url").truthy
    ∧ ((defaults options HTTPJSONDestination.defaultOptions).get "method").truthy
        = (options.get "method").truthy
    ∧ (((options.get "url").truthy = true →
        (defaults options HTTPJSONDestination.defaultOptions).get "url" = options.get "url"))
    ∧ (((options.get "method").truthy = true →
        (defaults options HTTPJSONDestination.defaultOptions).get "method"
          = options.get "method"))
    ∧ (defaults options HTTPJSONDestination.defaultOptions).get "headers"
        = if (options.get "headers").isUndefined = true then JSValue.object []
          else options.get "headers" := by
  have key : ∀ k, (options.get k).isUndefined = true → options.get k = JSValue.undefined := by
    intro k hu
    cases hv : options.get k <;> simp [hv, JSValue.isUndefined] at hu ⊢
  refine ⟨?_, ?_, ?_, ?_, ?_⟩
  · rw [defaults_get]
    by_cases hu : (options.get "url").isUndefined = true
    · rw [if_pos hu, key "url" hu]
      rfl
    · simp [hu]
  · rw [defaults_get]
    by_cases hu : (options.get "method").isUndefined = true
    · rw [if_pos hu, key "method" hu]
      rfl
    · simp [hu]
  · intro ht
    rw [defaults_get]
    by_cases hu : (options.get "url").isUndefined = true
    · rw [key "url" hu] at ht
      simp [JSValue.truthy] at ht
    · simp [hu]
  · intro ht
    rw [defaults_get]
    by_cases hu : (options.get "method").isUndefined = true
    · rw [key "method" hu] at ht
      simp [JSValue.truthy] at ht
    · simp [hu]
  · rw [defaults_get]
    by_cases hu : (options.get "headers").isUndefined = true
    · simp [hu, HTTPJSONDestination.defaultOptions, Obj.get]
    · simp [hu]

/-- C15: for a destination built by `new HTTPJSONDestination(options)`, `log` issues one
request; its `url` and `method` are those of the options, its `headers` are those of the
options, the empty mapping when the options have none, and its body is the object with
`logLevel`, `message` and `metadata`, the metadata being the mapping that `log` was given,
which `log` leaves as it was; the promise returned is the promise of the request. -/
theorem HTTPJSONDestination.log_request (options : Obj) (d : HTTPJSONDestination)
    (request : Obj → Completion JSValue) (level : Int) (message : JSValue) (metadata : Obj)
    (hnew : HTTPJSONDestination.new options = Outcome.returned d) :
    (d.log request level message metadata).effects
      = [Effect.request
          [("url", options.get "url"), ("method", options.get "method"),
           ("headers", if (options.get "headers").isUndefined = true then JSValue.object []
                       else options.get "headers"),
           ("json", JSValue.boolean true),
           ("body", JSValue.object [("logLevel", JSValue.number level), ("message", message),
                                    ("metadata", JSValue.object metadata)])]]
    ∧ (d.log request level message metadata).metadata = metadata
    ∧ (d.log request level message metadata).completion
      = request
          [("url", options.get "url"), ("method", options.get "method"),
           ("headers", if (options.get "headers").isUndefined = true then JSValue.object []
                       else options.get "headers"),
           ("json", JSValue.boolean true),
           ("body", JSValue.object [("logLevel", JSValue.number level), ("message", message),
                                    ("metadata", JSValue.object metadata)])] := by
  obtain ⟨hopt, hurl, hmethod⟩ := HTTPJSONDestination.new_returned options d hnew
  obtain ⟨h1, h2, h3, h4, h5⟩ := HTTPJSONDestination.http_defaultOptions_get options
  rw [h1] at hurl
  rw [h2] at hmethod
  have hro : d.requestOptions level message metadata
      = [("url", options.get "url"), ("method", options.get "method"),
         ("headers", if (options.get "headers").isUndefined = true then JSValue.object []
                     else options.get "headers"),
         ("json", JSValue.boolean true),
         ("body", JSValue.object [("logLevel", JSValue.number level), ("message", message),
                                  ("metadata", JSValue.object metadata)])] := by
    unfold HTTPJSONDestination.requestOptions
    rw [hopt, h3 hurl, h4 hmethod, h5]
  unfold HTTPJSONDestination.log
  rw [hro]
  exact ⟨rfl, rfl, rfl⟩

/-- C15 for the options `url: "http://localhost/log", method: "POST"` and a metadata with
a key outside the three recognised ones. -/
theorem HTTPJSONDestination.log_request_witness :
    HTTPJSONDestination.new Examples.httpOptions
      = Outcome.returned
          { options := [("url", JSValue.string "http://localhost/log"),
                        ("method", JSValue.string "POST"), ("headers", JSValue.object [])] }
    ∧ (HTTPJSONDestination.log
        { options := [("url", JSValue.string "http://localhost/log"),
                      ("method", JSValue.string "POST"), ("headers", JSValue.object [])] }
        (fun _ => Completion.pending) LogLevels.Info (JSValue.string "x")
        [("requestPath", JSValue.string "/home")]).effects
      = [Effect.request
          [("url", JSValue.string "http://localhost/log"),
           ("method", JSValue.string "POST"), ("headers", JSValue.object []),
           ("json", JSValue.boolean true),
           ("body", JSValue.object
              [("logLevel", JSValue.number 1), ("message", JSValue.string "x"),
               ("metadata", JSValue.object [("requestPath", JSValue.string "/home")])])]] :=
  ⟨rfl,
    (HTTPJSONDestination.log_request Examples.httpOptions
      { options := [("url", JSValue.string "http://localhost/log"),
                    ("method", JSValue.string "POST"), ("headers", JSValue.object [])] }
      (fun _ => Completion.pending) LogLevels.Info (JSValue.string "x")
      [("requestPath", JSValue.string "/home")] rfl).1⟩

theorem FileDestination.file_defaultOptions_get (options : Obj) :
    ((defaults options FileDestination.defaultOptions).get "filename").truthy
        = (options.get "filename").truthy
    ∧ ((options.get "filename").truthy = true →
        (defaults options FileDestination.defaultOptions).get "filename"
          = options.get "filename")
    ∧ ((defaults options FileDestination.defaultOptions).get "append").truthy
        = ((options.get "append").isUndefined || (options.get "append").truthy) := by
  have key : ∀ k, (options.get k).isUndefined = true → options.get k = JSValue.undefined := by
    intro k hu
    cases hv : options.get k <;> simp [hv, JSValue.isUndefined] at hu ⊢
  refine ⟨?_, ?_, ?_⟩
  · rw [defaults_get]
    by_cases hu : (options.get "filename").isUndefined = true
    · rw [if_pos hu, key "filename" hu]
      rfl
    · simp [hu]
  · intro ht
    rw [defaults_get]
    by_cases hu : (options.get "filename").isUndefined = true
    · rw [key "filename" hu] at ht
      simp [JSValue.truthy] at ht
    · simp [hu]
  · rw [defaults_get]
    by_cases hu : (options.get "append").isUndefined = true
    · rw [if_pos hu, hu]
      rfl
    · have hf : (options.get "append").isUndefined = false := by simpa using hu
      rw [if_neg hu, hf]
      rfl

/-- C16 (amended): `new HTTPJSONDestination(options)` throws exactly when `url` or `method`
is missing from the options (absent, or falsy like the `false` that stands for a missing
option), and otherwise stores the `url`, the `method` and the `headers` of the options,
the empty mapping when the options have no headers. `new FileDestination(options)` throws
before any file is opened exactly when `filename` is missing, with the error "filename is
a required option"; with a filename it opens that file, in mode "a" unless `append` is
given and falsy, then in mode "w", and throws exactly when the open throws. -/
theorem constructors_required_options (options : Obj) (fs : FileSystem) :
    ((∃ e, HTTPJSONDestination.new options = Outcome.threw e)
        ↔ ((options.get "url").truthy = false ∨ (options.get "method").truthy = false))
    ∧ (∀ d, HTTPJSONDestination.new options = Outcome.returned d →
        d.options.get "url" = options.get "url"
        ∧ d.options.get "method" = options.get "method"
        ∧ d.options.get "headers"
          = if (options.get "headers").isUndefined = true then JSValue.object []
            else options.get "headers")
    ∧ ((∃ e, FileDestination.new fs options = (Outcome.threw e, []))
        ↔ (options.get "filename").truthy = false)
    ∧ ((options.get "filename").truthy = false →
        FileDestination.new fs options
          = (Outcome.threw "filename is a required option", []))
    ∧ ((options.get "filename").truthy = true →
        (FileDestination.new fs options).2
          = [Effect.fsOpenSync (options.get "filename")
              (if ((options.get "append").isUndefined || (options.get "append").truthy) = true
               then "a" else "w")]
        ∧ ((∃ e, (FileDestination.new fs options).1 = Outcome.threw e)
            ↔ ∃ e, fs.openSync (options.get "filename")
                (if ((options.get "append").isUndefined
                      || (options.get "append").truthy) = true
                 then "a" else "w") = Outcome.threw e)) := by
  obtain ⟨h1, h2, h3, h4, h5⟩ := HTTPJSONDestination.http_defaultOptions_get options
  obtain ⟨f1, f2, f3⟩ := FileDestination.file_defaultOptions_get options
  have hmissing : (options.get "filename").truthy = false →
      FileDestination.new fs options
        = (Outcome.threw "filename is a required option", []) := by
    intro hf
    unfold FileDestination.new
    simp [f1, hf]
  have hopen : (options.get "filename").truthy = true →
      FileDestination.new fs options
        = match fs.openSync (options.get "filename")
            (if ((options.get "append").isUndefined || (options.get "append").truthy) = true
             then "a" else "w") with
          | Outcome.returned file =>
            (Outcome.returned { options := defaults options FileDestination.defaultOptions
                                file := file },
             [Effect.fsOpenSync (options.get "filename")
                (if ((options.get "append").isUndefined
                      || (options.get "append").truthy) = true
                 then "a" else "w")])
          | Outcome.threw e =>
            (Outcome.threw e,
             [Effect.fsOpenSync (options.get "filename")
                (if ((options.get "append").isUndefined
                      || (options.get "append").truthy) = true
                 then "a" else "w")]) := by
    intro hf
    unfold FileDestination.new
    rw [f1, f2 hf, f3]
    simp only [hf, Bool.not_true, Bool.false_eq_true, if_false]
  refine ⟨?_, ?_, ?_, hmissing, ?_⟩
  · unfold HTTPJSONDestination.new
    rw [h1, h2]
    by_cases hu : (options.get "url").truthy = true
    · by_cases hm : (options.get "method").truthy = true
      · simp [hu, hm]
      · simp [hu, hm]
    · simp [hu]
  · intro d hd
    obtain ⟨hopt, hurl, hmethod⟩ := HTTPJSONDestination.new_returned options d hd
    rw [h1] at hurl
    rw [h2] at hmethod
    rw [hopt]
    exact ⟨h3 hurl, h4 hmethod, h5⟩
  · constructor
    · rintro ⟨e, he⟩
      by_contra hne
      have hf : (options.get "filename").truthy = true := by simpa using hne
      rw [hopen hf] at he
      split at he <;> simp at he
    · intro hf
      exact ⟨_, hmissing hf⟩
  · intro hf
    rw [hopen hf]
    cases hres : fs.openSync (options.get "filename")
        (if ((options.get "append").isUndefined || (options.get "append").truthy) = true
         then "a" else "w") with
    | returned file => simp
    | threw e => simp

/-- C16 (amended) for options without `method`, for options without `filename`, and for
the options `filename: "app.log", logTransactionID: true`. -/
theorem constructors_required_options_witness :
    (∃ e, HTTPJSONDestination.new [("url", JSValue.string "http://localhost/log")]
        = Outcome.threw e)
    ∧ FileDestination.new Examples.fs [("append", JSValue.boolean false)]
        = (Outcome.threw "filename is a required option", [])
    ∧ (FileDestination.new Examples.fs Examples.fileOptions).2
        = [Effect.fsOpenSync (JSValue.string "app.log") "a"] :=
  ⟨(constructors_required_options [("url", JSValue.string "http://localhost/log")]
      Examples.fs).1.2 (Or.inr (by decide)),
    (constructors_required_options [("append", JSValue.boolean false)]
      Examples.fs).2.2.2.1 (by decide),
    ((constructors_required_options Examples.fileOptions Examples.fs).2.2.2.2
      (by decide)).1⟩

/-- C16 as stated fails: with the options `filename: "app.log", logTransactionID: true`,
where no required option is missing, `new FileDestination` throws when the file cannot be
opened, after the call of `fs.openSync`. -/
theorem constructors_required_options_counterexample :
    (Obj.get Examples.fileOptions "filename").truthy = true
    ∧ FileDestination.new Examples.fsNoOpen Examples.fileOptions
      = (Outcome.threw "ENOENT: no such file or directory",
         [Effect.fsOpenSync (JSValue.string "app.log") "a"]) := by
  refine ⟨by decide, by decide⟩

/-! ## The aggregation of the promises, and the entries without a `log` method -/

theorem Promise.all_rejected_mem (ps : List (Completion JSValue)) (e : String)
    (h : Promise.all ps = Completion.rejected e) : Completion.rejected e ∈ ps := by
  induction ps generalizing e with
  | nil => simp [Promise.all] at h
  | cons p ps ih =>
    cases p with
    | rejected e0 =>
      simp only [Promise.all, Completion.rejected.injEq] at h
      rw [h]
      exact List.mem_cons_self _ _
    | pending =>
      unfold Promise.all at h
      cases hall : Promise.all ps with
      | rejected e1 =>
        simp only [hall, Completion.rejected.injEq] at h
        rw [← h]
        exact List.mem_cons_of_mem _ (ih e1 hall)
      | pending => simp [hall] at h
      | resolved vs => simp [hall] at h
    | resolved v =>
      unfold Promise.all at h
      cases hall : Promise.all ps with
      | rejected e1 =>
        simp only [hall, Completion.rejected.injEq] at h
        rw [← h]
        exact List.mem_cons_of_mem _ (ih e1 hall)
      | pending => simp [hall] at h
      | resolved vs => simp [hall] at h

theorem Promise.all_rejected_of_mem (ps : List (Completion JSValue)) (e : String)
    (h : Completion.rejected e ∈ ps) : ∃ cause, Promise.all ps = Completion.rejected cause := by
  by_contra hne
  have hall : ∀ cause, Promise.all ps ≠ Completion.rejected cause :=
    fun cause hc => hne ⟨cause, hc⟩
  induction ps with
  | nil => simp at h
  | cons p ps ih =>
    cases p with
    | rejected e0 => exact hall e0 (by simp [Promise.all])
    | pending =>
      have hm : Completion.rejected e ∈ ps := by simpa using h
      apply ih hm
      · rintro ⟨cause, hc⟩
        exact hall cause (by simp [Promise.all, hc])
      · intro cause hc
        exact hall cause (by simp [Promise.all, hc])
    | resolved v =>
      have hm : Completion.rejected e ∈ ps := by simpa using h
      apply ih hm
      · rintro ⟨cause, hc⟩
        exact hall cause (by simp [Promise.all, hc])
      · intro cause hc
        exact hall cause (by simp [Promise.all, hc])

theorem Promise.all_resolved_iff (ps : List (Completion JSValue)) (vs : List JSValue) :
    Promise.all ps = Completion.resolved vs ↔ ps = vs.map Completion.resolved := by
  induction ps generalizing vs with
  | nil =>
    cases vs with
    | nil => simp [Promise.all]
    | cons v vs => simp [Promise.all]
  | cons p ps ih =>
    cases p with
    | rejected e0 =>
      cases vs with
      | nil => simp [Promise.all]
      | cons v vs => simp [Promise.all]
    | pending =>
      unfold Promise.all
      cases hall : Promise.all ps with
      | rejected e1 => cases vs <;> simp
      | pending => cases vs <;> simp
      | resolved ws => cases vs <;> simp
    | resolved v =>
      unfold Promise.all
      cases hall : Promise.all ps with
      | rejected e1 =>
        cases vs with
        | nil => simp
        | cons w ws =>
          simp only [List.map_cons, List.cons.injEq, Completion.resolved.injEq]
          constructor
          · intro h
            cases h
          · rintro ⟨_, hps⟩
            have := (ih ws).2 hps
            rw [hall] at this
            cases this
      | pending =>
        cases vs with
        | nil => simp
        | cons w ws =>
          simp only [List.map_cons, List.cons.injEq, Completion.resolved.injEq]
          constructor
          · intro h
            cases h
          · rintro ⟨_, hps⟩
            have := (ih ws).2 hps
            rw [hall] at this
            cases this
      | resolved us =>
        cases vs with
        | nil => simp
        | cons w ws =>
          simp only [Completion.resolved.injEq, List.cons.injEq, List.map_cons]
          constructor
          · rintro ⟨hv, hus⟩
            exact ⟨hv, (ih ws).1 (by rw [hall, hus])⟩
          · rintro ⟨hv, hps⟩
            have := (ih ws).2 hps
            rw [hall] at this
            exact ⟨hv, by simpa using this⟩

/-- The loop keeps the array `loggingPromises` in step with the invocations: the promise of
position `i` is the one returned by the invocation of position `i`. -/
theorem Logger.forEachDestination_linked (self : Logger) (logLevel : Int) (message : JSValue)
    (ds : List Destination) (l : List Destination) (index : Nat) (st : LogState)
    (pre : List Destination) (hds : ds = pre ++ l) (hpre : pre.length = index)
    (hst : List.Forall₂ (fun c p => ∃ d f, ds[c.destination]? = some d
        ∧ d.log = Member.method f ∧ p = (f c.logLevel c.message c.metadata).completion)
      st.calls st.loggingPromises) :
    List.Forall₂ (fun c p => ∃ d f, ds[c.destination]? = some d
        ∧ d.log = Member.method f ∧ p = (f c.logLevel c.message c.metadata).completion)
      (self.forEachDestination logLevel message index l st).calls
      (self.forEachDestination logLevel message index l st).loggingPromises := by
  induction l generalizing index st pre with
  | nil => exact hst
  | cons d rest ih =>
    simp only [Logger.forEachDestination]
    have hget : ds[index]? = some d := by
      rw [hds, List.getElem?_append_right (by omega)]
      simp [hpre]
    apply ih (index + 1) _ (pre ++ [d]) (by simp [hds]) (by simp [hpre])
    obtain ⟨m⟩ := d
    cases m with
    | data v =>
      rw [Logger.logCallback_data]
      exact hst
    | method f =>
      by_cases h : logLevel ≥ self.logLevel
      · rw [Logger.logCallback_method _ _ _ _ _ _ h]
        exact forall₂_append_singleton _ _ _ _ _ hst ⟨_, f, hget, rfl, rfl⟩
      · rw [Logger.logCallback_below _ _ _ _ _ _ (not_le.mp h)]
        exact hst

/-- C17: for a defined message and a level that passes the filter, `log` invokes every
attached destination that has a `log` method, whatever the promises of the destinations
are, and returns `Promise.all` of the promises `ps` that the invocations returned, one per
invocation and in their order: the returned promise is rejected iff one of `ps` is
rejected, then with the error of one of them, and it is resolved iff all of `ps` are
resolved, then with one value per invoked destination. -/
theorem Logger.log_aggregates (self : Logger) (level : Int) (message : JSValue)
    (metadata : Option Obj) (hmsg : message ≠ JSValue.undefined)
    (hlevel : level ≥ self.logLevel) :
    (self.log (JSValue.number level) message metadata).calls.map Call.destination
      = callablePositions 0 self.destinations
    ∧ ∃ ps : List (Completion JSValue),
      List.Forall₂ (fun c p => ∃ d f, self.destinations[c.destination]? = some d
          ∧ d.log = Member.method f ∧ p = (f c.logLevel c.message c.metadata).completion)
        (self.log (JSValue.number level) message metadata).calls ps
      ∧ ps.length = (self.log (JSValue.number level) message metadata).calls.length
      ∧ (self.log (JSValue.number level) message metadata).result
          = Outcome.returned (Promise.all ps)
      ∧ ((∃ e, (self.log (JSValue.number level) message metadata).result
              = Outcome.returned (Completion.rejected e))
          ↔ ∃ e, Completion.rejected e ∈ ps)
      ∧ (∀ e, (self.log (JSValue.number level) message metadata).result
              = Outcome.returned (Completion.rejected e) → Completion.rejected e ∈ ps)
      ∧ (∀ vs, (self.log (JSValue.number level) message metadata).result
              = Outcome.returned (Completion.resolved vs)
            ↔ ps = vs.map Completion.resolved)
      ∧ (∀ vs, (self.log (JSValue.number level) message metadata).result
              = Outcome.returned (Completion.resolved vs) →
            vs.length = (self.log (JSValue.number level) message metadata).calls.length) := by
  rw [Logger.log_valid self level message metadata hmsg]
  have hc := Logger.forEachDestination_calls self level message hlevel self.destinations 0
    { metadata := defaults (metadata.getD []) self.defaultMetadata
      loggingPromises := [], calls := [], effects := [] }
  simp only [List.map_nil, List.nil_append] at hc
  have hlink := Logger.forEachDestination_linked self level message self.destinations
    self.destinations 0
    { metadata := defaults (metadata.getD []) self.defaultMetadata
      loggingPromises := [], calls := [], effects := [] } [] rfl rfl List.Forall₂.nil
  refine ⟨hc, _, hlink, hlink.length_eq.symm, rfl, ?_, ?_, ?_, ?_⟩
  · constructor
    · rintro ⟨e, he⟩
      simp only [Outcome.returned.injEq] at he
      exact ⟨e, Promise.all_rejected_mem _ e he⟩
    · rintro ⟨e, he⟩
      obtain ⟨cause, hcause⟩ := Promise.all_rejected_of_mem _ e he
      exact ⟨cause, by rw [hcause]⟩
  · intro e he
    simp only [Outcome.returned.injEq] at he
    exact Promise.all_rejected_mem _ e he
  · intro vs
    simp only [Outcome.returned.injEq]
    exact Promise.all_resolved_iff _ vs
  · intro vs hvs
    simp only [Outcome.returned.injEq] at hvs
    have hps := (Promise.all_resolved_iff _ vs).1 hvs
    have hlen := hlink.length_eq
    rw [hps, List.length_map] at hlen
    exact hlen.symm

/-- C17 on a logger with an HTTP destination whose request fails followed by a console
destination: both are invoked, the console destination prints the message, and the
returned promise is rejected with the error of the request. -/
theorem Logger.log_aggregates_witness :
    JSValue.string "m" ≠ JSValue.undefined
    ∧ LogLevels.Info ≥ LogLevels.Info
    ∧ (({ destinations := [Examples.httpDown, Examples.console], logLevel := LogLevels.Info
          defaultMetadata := [] } : Logger).log
        (JSValue.number LogLevels.Info) (JSValue.string "m") none).calls.map Call.destination
      = callablePositions 0 [Examples.httpDown, Examples.console]
    ∧ callablePositions 0 [Examples.httpDown, Examples.console] = [0, 1]
    ∧ (({ destinations := [Examples.httpDown, Examples.console], logLevel := LogLevels.Info
          defaultMetadata := [] } : Logger).log
        (JSValue.number LogLevels.Info) (JSValue.string "m") none).result
      = Outcome.returned (Completion.rejected "connect ECONNREFUSED")
    ∧ Effect.consoleLog "m"
      ∈ (({ destinations := [Examples.httpDown, Examples.console], logLevel := LogLevels.Info
            defaultMetadata := [] } : Logger).log
          (JSValue.number LogLevels.Info) (JSValue.string "m") none).effects :=
  ⟨by decide, by decide,
    (Logger.log_aggregates
      { destinations := [Examples.httpDown, Examples.console], logLevel := LogLevels.Info
        defaultMetadata := [] }
      LogLevels.Info (JSValue.string "m") none (by decide) (by decide)).1,
    by decide, by decide, by decide⟩

/-- C18: `setLogLevel(level)` throws exactly when the level is not a number and returns
without throwing when it is one; in both cases the destination list and the default
metadata of the logger are as before. -/
theorem Logger.setLogLevel_validates (self : Logger) (level : JSValue) :
    ((∃ e, (self.setLogLevel level).1 = Outcome.threw e) ↔ level.typeof ≠ "number")
    ∧ (self.setLogLevel level).1
        = (if level.typeof = "number" then Outcome.returned ()
           else Outcome.threw "Log level should be a number")
    ∧ (self.setLogLevel level).2.destinations = self.destinations
    ∧ (self.setLogLevel level).2.defaultMetadata = self.defaultMetadata := by
  unfold Logger.setLogLevel
  by_cases h : level.typeof = "number"
  · simp [h]
  · simp [h]

/-- C20 (the code at the failing input): with `logTransactionID` enabled and the metadata
`transactionID: "abc123"`, the file destination writes `"Transaction ID: abc123 - x"` and
a newline, the console destination writes `"Transaction: abc123 - x"`: the text of the
file without its newline is not the line of the console. -/
theorem FileDestination.log_label_differs :
    (Examples.file.log Examples.fs LogLevels.Info (JSValue.string "x")
        [("transactionID", JSValue.string "abc123")]).effects
      = [Effect.fsWriteSync 3 ("Transaction ID: abc123 - x" ++ "\n"), Effect.fsFsyncSync 3]
    ∧ (Examples.consoleTransaction.log LogLevels.Info (JSValue.string "x")
        [("transactionID", JSValue.string "abc123")]).effects
      = [Effect.consoleLog "Transaction: abc123 - x"]
    ∧ (Examples.file.options.get "logTransactionID").truthy
      = (Examples.consoleTransaction.options.get "logTransactionID").truthy
    ∧ "Transaction ID: abc123 - x" ≠ "Transaction: abc123 - x" := by
  refine ⟨by decide, by decide, by decide, by decide⟩

/-! ## The logger in any state: agreement with `Logger.log`, stored defaults, entries -/

theorem LoggerObject.logCallback_toObject (self : Logger) (logLevel : Int)
    (message : JSValue) (index : Nat) (destination : Destination) (st : LogState) :
    self.toObject.logCallback logLevel message index (Entry.object destination) st
      = Outcome.returned (self.logCallback logLevel message index destination st) := by
  obtain ⟨m⟩ := destination
  cases m with
  | data v =>
    rw [Logger.logCallback_data]
    simp [LoggerObject.logCallback, Member.typeof, JSValue.typeof_ne_function]
  | method f =>
    by_cases h : logLevel ≥ self.logLevel
    · rw [Logger.logCallback_method _ _ _ _ _ _ h]
      simp [LoggerObject.logCallback, Member.typeof, Member.truthy, Logger.toObject, h]
    · rw [Logger.logCallback_below _ _ _ _ _ _ (not_le.mp h)]
      simp [LoggerObject.logCallback, Member.typeof, Member.truthy, Logger.toObject, h]

theorem LoggerObject.forEachEntry_toObject (self : Logger) (logLevel : Int)
    (message : JSValue) (l : List Destination) (index : Nat) (st : LogState) :
    self.toObject.forEachEntry logLevel message index (l.map Entry.object) st
      = (self.forEachDestination logLevel message index l st, none) := by
  induction l generalizing index st with
  | nil => rfl
  | cons d rest ih =>
    simp only [List.map_cons, LoggerObject.forEachEntry, Logger.forEachDestination,
      LoggerObject.logCallback_toObject, ih]

/-- On a logger built through the constructor and `attachDestination`, called with no
metadata or with a mapping of the caller's own, `LoggerObject.log` is `Logger.log`. -/
theorem LoggerObject.log_toObject (self : Logger) (level message : JSValue)
    (metadata : Option Obj) :
    (self.toObject.log level message (MetadataArgument.ofOption metadata)).result
        = (self.log level message metadata).result
    ∧ (self.toObject.log level message (MetadataArgument.ofOption metadata)).logger
        = (self.log level message metadata).logger.toObject
    ∧ (self.toObject.log level message (MetadataArgument.ofOption metadata)).metadata
        = (self.log level message metadata).metadata
    ∧ (self.toObject.log level message (MetadataArgument.ofOption metadata)).calls
        = (self.log level message metadata).calls
    ∧ (self.toObject.log level message (MetadataArgument.ofOption metadata)).effects
        = (self.log level message metadata).effects := by
  have hloop : ∀ (n : Int) (st : LogState),
      self.toObject.forEachEntry n message 0 self.toObject.destinations st
        = (self.forEachDestination n message 0 self.destinations st, none) :=
    fun n st => LoggerObject.forEachEntry_toObject self n message self.destinations 0 st
  cases metadata with
  | none =>
    cases level <;>
      simp [LoggerObject.log, Logger.log, MetadataArgument.ofOption,
        LoggerObject.argumentObject, hloop]
    all_goals split <;> simp [Logger.toObject]
  | some m =>
    cases level <;>
      simp [LoggerObject.log, Logger.log, MetadataArgument.ofOption,
        LoggerObject.argumentObject, hloop]
    all_goals split <;> simp [Logger.toObject]

theorem Obj.set_get_self (o : Obj) (k : String) (h : o.hasKey k = true) :
    o.set k (o.get k) = o := by
  induction o with
  | nil => simp [Obj.hasKey] at h
  | cons p rest ih =>
    obtain ⟨key, w⟩ := p
    by_cases hk : key = k
    · subst hk
      simp [Obj.set, Obj.get]
    · simp only [Obj.hasKey, hk, if_false] at h
      simp [Obj.set, Obj.get, hk, ih h]

/-- Filling an object with its own properties changes nothing: this is the call
`_.defaults(metadata, this.defaultMetadata)` when both are the same object. -/
theorem defaults_self (o : Obj) : defaults o o = o := by
  have hfold : ∀ ks : List String, (∀ k ∈ ks, o.hasKey k = true) →
      ks.foldl (defaultsStep o) o = o := by
    intro ks
    induction ks with
    | nil => intro _; rfl
    | cons k ks ih =>
      intro hks
      have hk : o.hasKey k = true := hks k (List.mem_cons_self _ _)
      have hstep : defaultsStep o o k = o := by
        unfold defaultsStep
        split
        · exact Obj.set_get_self o k hk
        · rfl
      rw [List.foldl_cons, hstep]
      exact ih (fun j hj => hks j (List.mem_cons_of_mem _ hj))
  exact hfold o.keys (fun k hk => (Obj.hasKey_eq_true_iff o k).2 hk)

theorem LoggerObject.logCallback_metadata (self : LoggerObject) (logLevel : Int)
    (message : JSValue) (index : Nat) (entry : Entry) (st next : LogState)
    (h : self.logCallback logLevel message index entry st = Outcome.returned next) :
    st.calls.length ≤ next.calls.length
    ∧ (next.calls.length = st.calls.length → next.metadata = st.metadata) := by
  cases entry with
  | null => simp [LoggerObject.logCallback] at h
  | undefined => simp [LoggerObject.logCallback] at h
  | object destination =>
    obtain ⟨m⟩ := destination
    cases m with
    | data v =>
      simp [LoggerObject.logCallback, Member.typeof, JSValue.typeof_ne_function] at h
      subst h
      exact ⟨le_refl _, fun _ => rfl⟩
    | method f =>
      by_cases hl : logLevel ≥ self.logLevel
      · simp [LoggerObject.logCallback, Member.typeof, Member.truthy, hl] at h
        subst h
        simp
      · simp [LoggerObject.logCallback, Member.typeof, Member.truthy, hl] at h
        subst h
        exact ⟨le_refl _, fun _ => rfl⟩

theorem LoggerObject.forEachEntry_metadata (self : LoggerObject) (logLevel : Int)
    (message : JSValue) (l : List Entry) (index : Nat) (st : LogState) :
    st.calls.length ≤ (self.forEachEntry logLevel message index l st).1.calls.length
    ∧ ((self.forEachEntry logLevel message index l st).1.calls.length = st.calls.length →
        (self.forEachEntry logLevel message index l st).1.metadata = st.metadata) := by
  induction l generalizing index st with
  | nil => exact ⟨le_refl _, fun _ => rfl⟩
  | cons entry rest ih =>
    unfold LoggerObject.forEachEntry
    cases hcb : self.logCallback logLevel message index entry st with
    | threw e => exact ⟨le_refl _, fun _ => rfl⟩
    | returned next =>
      dsimp only
      obtain ⟨h1, h2⟩ := LoggerObject.logCallback_metadata self logLevel message index entry
        st next hcb
      obtain ⟨i1, i2⟩ := ih (index + 1) next
      refine ⟨le_trans h1 i1, ?_⟩
      intro hlen
      have hnext : next.calls.length = st.calls.length := by omega
      rw [i2 (by omega), h2 hnext]

/-- C9 (amended): whatever the state of the logger and the arguments, and whether `log`
returns a resolved or a rejected promise or throws, it leaves the minimum level and the
destination list as they were; when the metadata argument is absent or a mapping of the
caller's own it leaves the stored default metadata as they were; when the argument is the
`defaultMetadata` object of the logger itself, the stored default metadata after the call
are that object as the call leaves it, unchanged when no destination was invoked. -/
theorem LoggerObject.log_stored_defaults (self : LoggerObject) (level message : JSValue)
    (metadata : MetadataArgument) :
    (self.log level message metadata).logger.logLevel = self.logLevel
    ∧ (self.log level message metadata).logger.destinations = self.destinations
    ∧ (metadata ≠ MetadataArgument.defaultMetadata →
        (self.log level message metadata).logger.defaultMetadata = self.defaultMetadata)
    ∧ (metadata = MetadataArgument.defaultMetadata →
        (self.log level message metadata).metadata
          = some (self.log level message metadata).logger.defaultMetadata)
    ∧ (metadata = MetadataArgument.defaultMetadata →
        (self.log level message metadata).calls = [] →
        (self.log level message metadata).logger.defaultMetadata = self.defaultMetadata) := by
  by_cases hnum : ∃ n, level = JSValue.number n
  · obtain ⟨n, hn⟩ := hnum
    subst hn
    by_cases hmsg : message.typeof = "undefined"
    · cases metadata <;> simp [LoggerObject.log, hmsg, LoggerObject.argumentObject]
    · cases metadata with
      | absent => simp [LoggerObject.log, hmsg, LoggerObject.argumentObject]
      | mapping m => simp [LoggerObject.log, hmsg, LoggerObject.argumentObject]
      | defaultMetadata =>
        simp only [LoggerObject.log, hmsg, LoggerObject.argumentObject, beq_iff_eq,
          if_false, Option.map_some', ne_eq, not_true_eq_false, false_implies, true_implies,
          true_and, and_self]
        intro hcalls
        have hm := (LoggerObject.forEachEntry_metadata self n message self.destinations 0
          { metadata := defaults self.defaultMetadata self.defaultMetadata
            loggingPromises := [], calls := [], effects := [] }).2
        rw [hcalls] at hm
        rw [hm rfl]
        exact defaults_self self.defaultMetadata
  · have hlv : ∀ n, level ≠ JSValue.number n := fun n h => hnum ⟨n, h⟩
    cases level with
    | number n => exact absurd rfl (hlv n)
    | _ => cases metadata <;> simp [LoggerObject.log, LoggerObject.argumentObject]

/-- C9 (amended) on a logger of minimum level Info with default metadata `a: 1` and a
console destination: `log(Info, "m", P)` with a mapping `P` of the caller's own leaves the
stored default metadata `a: 1`, and so does `log(Debug, "m", logger.defaultMetadata)`,
which invokes no destination. -/
theorem LoggerObject.log_stored_defaults_witness :
    MetadataArgument.mapping [("transactionID", JSValue.string "t1")]
      ≠ MetadataArgument.defaultMetadata
    ∧ (({ destinations := [Entry.object Examples.console], logLevel := LogLevels.Info
          defaultMetadata := [("a", JSValue.number 1)] } : LoggerObject).log
        (JSValue.number LogLevels.Info) (JSValue.string "m")
        (MetadataArgument.mapping [("transactionID", JSValue.string "t1")])).logger.defaultMetadata
      = [("a", JSValue.number 1)]
    ∧ (({ destinations := [Entry.object Examples.console], logLevel := LogLevels.Info
          defaultMetadata := [("a", JSValue.number 1)] } : LoggerObject).log
        (JSValue.number LogLevels.Debug) (JSValue.string "m")
        MetadataArgument.defaultMetadata).logger.defaultMetadata
      = [("a", JSValue.number 1)] :=
  ⟨fun h => MetadataArgument.noConfusion h,
    (LoggerObject.log_stored_defaults
      { destinations := [Entry.object Examples.console], logLevel := LogLevels.Info
        defaultMetadata := [("a", JSValue.number 1)] }
      (JSValue.number LogLevels.Info) (JSValue.string "m")
      (MetadataArgument.mapping [("transactionID", JSValue.string "t1")])).2.2.1
      (fun h => MetadataArgument.noConfusion h),
    (LoggerObject.log_stored_defaults
      { destinations := [Entry.object Examples.console], logLevel := LogLevels.Info
        defaultMetadata := [("a", JSValue.number 1)] }
      (JSValue.number LogLevels.Debug) (JSValue.string "m")
      MetadataArgument.defaultMetadata).2.2.2.2 rfl (by decide)⟩

/-- C9 as stated fails: on a logger with default metadata `a: 1` and a console
destination, the call `log(Info, "m", logger.defaultMetadata)` resolves and leaves the
stored default metadata with the keys `processID`, `timestamp` and `transactionID` that
the console destination wrote into the object. -/
theorem LoggerObject.log_stored_defaults_counterexample :
    (({ destinations := [Entry.object Examples.console], logLevel := LogLevels.Info
        defaultMetadata := [("a", JSValue.number 1)] } : LoggerObject).log
      (JSValue.number LogLevels.Info) (JSValue.string "m")
      MetadataArgument.defaultMetadata).logger.defaultMetadata
      = [("a", JSValue.number 1), ("processID", JSValue.boolean false),
         ("timestamp", JSValue.boolean false), ("transactionID", JSValue.boolean false)]
    ∧ [("a", JSValue.number 1), ("processID", JSValue.boolean false),
       ("timestamp", JSValue.boolean false), ("transactionID", JSValue.boolean false)]
      ≠ [("a", JSValue.number 1)]
    ∧ (({ destinations := [Entry.object Examples.console], logLevel := LogLevels.Info
          defaultMetadata := [("a", JSValue.number 1)] } : LoggerObject).log
        (JSValue.number LogLevels.Info) (JSValue.string "m")
        MetadataArgument.defaultMetadata).result
      = Outcome.returned (Completion.resolved [JSValue.undefined]) := by
  refine ⟨by decide, by decide, by decide⟩

/-- C19 (the code at the failing input): on a new logger into whose `destinations` direct
access has pushed `null`, `log(Info, "m")` throws a `TypeError` at the reading of
`destination.log`, and a console destination that follows the `null` entry is not
invoked; an entry that is an object without a `log` member is skipped, and the console
destination that follows it prints the message. -/
theorem LoggerObject.log_null_entry :
    (({ destinations := [Entry.null], logLevel := LogLevels.Info
        defaultMetadata := [] } : LoggerObject).log
      (JSValue.number LogLevels.Info) (JSValue.string "m") MetadataArgument.absent).result
      = Outcome.threw "TypeError: Cannot read property \x27log\x27 of null"
    ∧ (({ destinations := [Entry.null, Entry.object Examples.console]
          logLevel := LogLevels.Info, defaultMetadata := [] } : LoggerObject).log
        (JSValue.number LogLevels.Info) (JSValue.string "m") MetadataArgument.absent).result
      = Outcome.threw "TypeError: Cannot read property \x27log\x27 of null"
    ∧ (({ destinations := [Entry.null, Entry.object Examples.console]
          logLevel := LogLevels.Info, defaultMetadata := [] } : LoggerObject).log
        (JSValue.number LogLevels.Info) (JSValue.string "m") MetadataArgument.absent).effects
      = []
    ∧ (({ destinations := [Entry.object { log := Member.data JSValue.undefined },
                           Entry.object Examples.console]
          logLevel := LogLevels.Info, defaultMetadata := [] } : LoggerObject).log
        (JSValue.number LogLevels.Info) (JSValue.string "m") MetadataArgument.absent).result
      = Outcome.returned (Completion.resolved [JSValue.undefined])
    ∧ (({ destinations := [Entry.object { log := Member.data JSValue.undefined },
                           Entry.object Examples.console]
          logLevel := LogLevels.Info, defaultMetadata := [] } : LoggerObject).log
        (JSValue.number LogLevels.Info) (JSValue.string "m") MetadataArgument.absent).effects
      = [Effect.consoleLog "m"] := by
  refine ⟨by decide, by decide, by decide, by decide, by decide⟩
